import Mathlib

/-!
Shallow embedding of the CloudStack cloud-controller-manager load-balancer
reconciler (package `cloudstack`), together with proofs about the claims of
its specification.

Conventions of the embedding:
* Go strings are `String`, Go `int`/`int32` are `Int` (values in the program
  stay far from any overflow boundary, which is noted where relevant).
* Fallible remote (CloudStack API) calls are driven by an explicit
  environment of oracles; successful mutations are recorded in a trace of
  `CloudAction`s.
* Go maps used as sets / multisets are modelled by lists kept duplicate-free
  by the very insertion functions the code uses; Go's nondeterministic map
  iteration order is replaced by the deterministic list order (all claims
  under study are insensitive to that order, as noted at each use site).
-/

namespace CSCCM

/-- Errors produced by the controller.  Each constructor corresponds to one
`fmt.Errorf`/`errors.New` site of the Go source (several sites that wrap a
remote error are collapsed onto one constructor carrying the distinguishing
data). -/
inductive GoError where
  | listLBRulesError
  | listVMsError
  | crossNetworkError
  | noHostsMatchedError
  | noPortsError
  | unsupportedAffinity (affinity : String)
  | unsupportedProtocol (proto : String)
  | ipNotFound (ip : String)
  | listPublicIPError
  | networkError
  | associateIPError
  | releaseIPError
  | createLBRuleError (name : String)
  | updateLBRuleError (name : String)
  | deleteLBRuleError (name : String)
  | assignHostsError (name : String)
  | removeHostsError (name : String)
  | listFirewallError (ipid : String)
  | createFirewallError (ipid : String)
  | deleteFirewallError (id : String)
  | parseProtocolError (proto : String)
  | parsePortError (port : String)
  | sourceRangesError
  | patchError
  | aggregate (first second : GoError)
  deriving DecidableEq

/-- Successful remote mutations (and the final Service patch request)
performed during a call, in order. -/
inductive CloudAction where
  | deleteFirewall (id : String)
  | createFirewall (id : String)
  | deleteLBRule (id : String)
  | createLBRule (name : String)
  | updateLBRule (id : String)
  | assignHosts (ruleId : String) (hostIDs : List String)
  | removeHosts (ruleId : String) (hostIDs : List String)
  | associateIP (id : String)
  | disassociateIP (id : String)
  | patchService
  deriving DecidableEq

/-- `defaultAllowedCIDR` from the source: the network range allowed on the
firewall when no explicit CIDR list is given. -/
def defaultAllowedCIDR : String := "0.0.0.0/0"

/-- Modelled from the spec: the closed protocol enumeration of the Protocol
Mapper ({TCP, UDP, ICMP, TCP-proxy} plus an invalid marker).  The Go type
`LoadBalancerProtocol` and its conversion methods are referenced by the
sources under `src/` but their defining file is not part of `src/`. -/
inductive LoadBalancerProtocol where
  | invalid
  | tcp
  | udp
  | tcpProxy
  | icmp
  deriving DecidableEq

namespace LoadBalancerProtocol

/-- Modelled from the spec: conversion to the load-balancer-rule wire
vocabulary (`CSProtocol`), using the names of `constants.go`. -/
def CSProtocol : LoadBalancerProtocol → String
  | .invalid => ""
  | .tcp => "tcp"
  | .udp => "udp"
  | .tcpProxy => "tcp-proxy"
  | .icmp => "icmp"

/-- Modelled from the spec: conversion to the firewall-rule wire vocabulary
(`IPProtocol`); the proxy variant of TCP is plain `tcp` at the firewall. -/
def IPProtocol : LoadBalancerProtocol → String
  | .invalid => ""
  | .tcp => "tcp"
  | .udp => "udp"
  | .tcpProxy => "tcp"
  | .icmp => "icmp"

end LoadBalancerProtocol

/-- The fields of `cloudstack.FirewallRule` read or written by the source.
In the Go SDK `Cidrlist` is one comma-separated string that the controller
always reads through `strings.Split(rule.Cidrlist, ",")` and always writes
from a `[]string`; the embedding keeps the element list itself. -/
structure FirewallRule where
  Id : String
  Protocol : String
  Startport : Int
  Endport : Int
  Cidrlist : List String
  Ipaddressid : String
  deriving DecidableEq

/-! ### compareStringSlice

Faithful translation of `compareStringSlice` from the source: the Go
`map[string]int` called `diff` is an association list whose keys stay
duplicate-free because insertion (`bumpCount`) only appends unseen keys. -/

/-- `diff[_x]++` of the source (insert-or-increment into the counter map). -/
def bumpCount : List (String × Int) → String → List (String × Int)
  | [], k => [(k, 1)]
  | (a, n) :: rest, k =>
    if a = k then (a, n + 1) :: rest else (a, n) :: bumpCount rest k

/-- `_, ok := diff[k]` of the source (map lookup). -/
def lookupCount : List (String × Int) → String → Option Int
  | [], _ => none
  | (a, n) :: rest, k => if a = k then some n else lookupCount rest k

/-- `diff[k]--` followed by `if diff[k] == 0 { delete(diff, k) }`. -/
def decCount : List (String × Int) → String → List (String × Int)
  | [], _ => []
  | (a, n) :: rest, k =>
    if a = k then (if n - 1 = 0 then rest else (a, n - 1) :: rest)
    else (a, n) :: decCount rest k

/-- The `for _, _y := range y` loop of `compareStringSlice`: bail out with
`none` as soon as a key is missing, otherwise decrement. -/
def consumeCounts : List (String × Int) → List String → Option (List (String × Int))
  | m, [] => some m
  | m, k :: ks =>
    if (lookupCount m k).isSome then consumeCounts (decCount m k) ks else none

/-- `compareStringSlice` from the source: order-independent,
multiplicity-sensitive comparison of two string slices. -/
def compareStringSlice (x y : List String) : Bool :=
  if x.length ≠ y.length then false
  else
    match consumeCounts (x.foldl bumpCount []) y with
    | none => false
    | some m => m.length = 0

/-- The integer the counter map associates to a key (0 when absent). -/
def valC (m : List (String × Int)) (k : String) : Int :=
  (lookupCount m k).getD 0

/-- Invariant of the Go counter map: every stored count is at least 1 and
each key occurs at most once (both hold for real Go maps; the insertion and
decrement translations preserve them). -/
def CountInv : List (String × Int) → Prop
  | [] => True
  | (a, n) :: rest => 1 ≤ n ∧ lookupCount rest a = none ∧ CountInv rest

/-! ### Firewall rule synchronization -/

/-- Oracles for the remote firewall API calls: which `DeleteFirewallRule`
and `CreateFirewallRule`/`ListFirewallRules` calls fail, and the id the
platform assigns to a newly created rule. -/
structure FirewallEnv where
  listFails : String → Bool
  deleteFails : String → Bool
  createFails : String → Bool
  newRuleId : String

/-- Outcome of a firewall-synchronization call: the new remote state, the
boolean the Go function returns, the successful mutations, and the error. -/
structure FWResult where
  fw : List FirewallRule
  changed : Bool
  trace : List CloudAction
  err : Option GoError
  deriving DecidableEq

/-- `ListFirewallRules` with `SetIpaddressid`: the platform returns the
rules of one public IP. -/
def listFirewallFor (fw : List FirewallRule) (publicIPID : String) : List FirewallRule :=
  fw.filter (fun r => decide (r.Ipaddressid = publicIPID))

/-- The proto+port filter shared by `updateFirewallRule` and
`deleteFirewallRule` (`rule.Protocol == protocol.IPProtocol() &&
rule.Startport == publicPort && rule.Endport == publicPort`). -/
def matchesProtoPort (publicPort : Int) (protocol : LoadBalancerProtocol)
    (r : FirewallRule) : Bool :=
  decide (r.Protocol = protocol.IPProtocol ∧ r.Startport = publicPort ∧ r.Endport = publicPort)

/-- The delete loops of `updateFirewallRule`/`deleteFirewallRule`: each
failure is only logged, and the shared `err` variable is overwritten by
every attempt (`_, err = lb.Firewall.DeleteFirewallRule(p)`), so a success
resets it to `nil`. -/
def deleteFirewallLoop (env : FirewallEnv) :
    List FirewallRule → List FirewallRule → Option GoError → List CloudAction →
      List FirewallRule × Option GoError × List CloudAction
  | fw, [], e, tr => (fw, e, tr)
  | fw, r :: rest, _, tr =>
    if env.deleteFails r.Id then
      deleteFirewallLoop env fw rest (some (.deleteFirewallError r.Id)) tr
    else
      deleteFirewallLoop env (fw.filter (fun x => decide (x.Id ≠ r.Id))) rest none
        (tr ++ [.deleteFirewall r.Id])

/-- `updateFirewallRule` from the source.  `fw` is the platform's
firewall-rule state (across all IPs); the listing the code performs is the
`Ipaddressid` filter.  Go iterates the `filtered` map in arbitrary order
and `break`s at the first CIDR-matching rule; the embedding scans in
listing order (the claims below do not depend on which multiset-equal rule
is kept).  Deletion is by rule id, as `NewDeleteFirewallRuleParams(rule.Id)`
is. -/
def updateFirewallRule (env : FirewallEnv) (fw : List FirewallRule) (publicIPID : String)
    (publicPort : Int) (protocol : LoadBalancerProtocol) (allowedCIDRs : List String) :
    FWResult :=
  let allowed := if allowedCIDRs.length = 0 then [defaultAllowedCIDR] else allowedCIDRs
  if env.listFails publicIPID then ⟨fw, false, [], some (.listFirewallError publicIPID)⟩
  else
    let filtered := (listFirewallFor fw publicIPID).filter (matchesProtoPort publicPort protocol)
    let mtch := filtered.find? (fun r => compareStringSlice r.Cidrlist allowed)
    let toDelete :=
      match mtch with
      | some m => filtered.filter (fun r => decide (r.Id ≠ m.Id))
      | none => filtered
    let after := deleteFirewallLoop env fw toDelete none []
    match mtch with
    | some _ => ⟨after.1, true, after.2.2, after.2.1⟩
    | none =>
      if env.createFails publicIPID then
        ⟨after.1, false, after.2.2, some (.createFirewallError publicIPID)⟩
      else
        let newRule : FirewallRule :=
          { Id := env.newRuleId, Protocol := protocol.IPProtocol,
            Startport := publicPort, Endport := publicPort,
            Cidrlist := allowed, Ipaddressid := publicIPID }
        ⟨after.1 ++ [newRule], true, after.2.2 ++ [.createFirewall env.newRuleId], none⟩

/-- `deleteFirewallRule` from the source: delete every rule of the IP whose
(protocol, start port, end port) matches; `deleted` is true when at least
one delete succeeded; the returned error is the last attempt's outcome. -/
def deleteFirewallRule (env : FirewallEnv) (fw : List FirewallRule) (publicIPID : String)
    (publicPort : Int) (protocol : LoadBalancerProtocol) : FWResult :=
  if env.listFails publicIPID then ⟨fw, false, [], some (.listFirewallError publicIPID)⟩
  else
    let filtered := (listFirewallFor fw publicIPID).filter (matchesProtoPort publicPort protocol)
    let after := deleteFirewallLoop env fw filtered none []
    ⟨after.1, decide (after.2.2 ≠ []), after.2.2, after.2.1⟩

/-! ### Host sets and symmetric difference -/

/-- The fields of `cloudstack.Nic` the source reads. -/
structure Nic where
  Networkid : String
  deriving DecidableEq

/-- The fields of `cloudstack.VirtualMachine` the source reads. -/
structure VirtualMachine where
  Id : String
  Name : String
  Nic : List Nic
  deriving DecidableEq

/-- Insertion into a Go `map[string]bool` used as a set (`m[k] = true`),
modelled as an append-if-absent list, which keeps the list duplicate-free. -/
def insertNew (m : List String) (k : String) : List String :=
  if k ∈ m then m else m ++ [k]

/-- The instance loop of `symmetricDifference`: ids found in the desired
set are removed from it, ids not found are appended to `remove`. -/
def symDiffLoop : List String → List VirtualMachine → List String →
    List String × List String
  | newIDs, [], remove => (newIDs, remove)
  | newIDs, inst :: rest, remove =>
    if inst.Id ∈ newIDs then symDiffLoop (newIDs.erase inst.Id) rest remove
    else symDiffLoop newIDs rest (remove ++ [inst.Id])

/-- `symmetricDifference` from the source.  The final `for hostID := range
newIDs` map iteration is modelled by keeping the residual set in insertion
order (the claims below treat `assign` as a set, so the order Go happens to
produce is irrelevant). -/
def symmetricDifference (hostIDs : List String) (lbInstances : List VirtualMachine) :
    List String × List String :=
  let newIDs := hostIDs.foldl insertNew []
  symDiffLoop newIDs lbInstances []

/-- The id projection of an instance list. -/
def vmIds (l : List VirtualMachine) : List String :=
  l.map VirtualMachine.Id

example : symmetricDifference ["a", "b"] [⟨"b", "b", []⟩, ⟨"c", "c", []⟩] = (["a"], ["c"]) := by
  decide

example : symmetricDifference ["a"] [⟨"a", "a", []⟩, ⟨"a", "a", []⟩] = ([], ["a"]) := by
  decide

/-! ### verifyHosts -/

/-- Structural model of Go `strings.ToLower` (per-character case folding;
ASCII suffices for the identifiers at issue). -/
def goToLower (s : String) : String :=
  String.mk (s.data.map Char.toLower)

/-- `strings.Split(s, ".")[0]`: the prefix of `s` before its first dot. -/
def domainStrip (s : String) : String :=
  String.mk (s.data.takeWhile (fun c => c != '.'))

/-- The `hostNames` set of `verifyHosts`: lower-cased, domain-stripped node
names (a Go `map[string]bool` used as a set). -/
def hostNamesOf (nodes : List String) : List String :=
  nodes.foldl (fun m n => insertNew m (domainStrip (goToLower n))) []

/-- The VM loop of `verifyHosts`: skip unmatched VMs and matched VMs
without a NIC, fail when the first NIC's network disagrees with a
previously recorded non-empty network id, else record id and network. -/
def verifyHostsLoop (hostNames : List String) :
    List VirtualMachine → List String → String → Except GoError (List String × String)
  | [], ids, net => .ok (ids, net)
  | vm :: rest, ids, net =>
    if goToLower vm.Name ∈ hostNames then
      match vm.Nic with
      | [] => verifyHostsLoop hostNames rest ids net
      | nic :: _ =>
        if net ≠ "" ∧ net ≠ nic.Networkid then .error .crossNetworkError
        else verifyHostsLoop hostNames rest (ids ++ [vm.Id]) nic.Networkid
    else verifyHostsLoop hostNames rest ids net

/-- `verifyHosts` from the source; the `ListVirtualMachines` response is
passed in as `vms`. -/
def verifyHosts (vms : List VirtualMachine) (nodes : List String) :
    Except GoError (List String × String) :=
  match verifyHostsLoop (hostNamesOf nodes) vms [] "" with
  | .error e => .error e
  | .ok (ids, net) =>
    if ids.length = 0 ∨ net.length = 0 then .error .noHostsMatchedError
    else .ok (ids, net)

/-! ### Load balancer data model and locator -/

/-- The fields of `cloudstack.LoadBalancerRule` the source reads or writes
(all strings in the Go SDK, ports included). -/
structure LoadBalancerRule where
  Id : String
  Algorithm : String
  Cidrlist : String
  Name : String
  Networkid : String
  Privateport : String
  Publicport : String
  Publicip : String
  Publicipid : String
  Protocol : String
  deriving DecidableEq

/-- The `loadBalancer` aggregate of the source.  The Go `rules` map keyed
by rule name is a list with name-keyed overwrite and delete; `warnings`
records the `klog.Warningf` calls of `getLoadBalancerByName` about rules
disagreeing on their public IP. -/
structure LB where
  name : String
  algorithm : String
  hostIDs : List String
  ipAddr : String
  ipAddrID : String
  networkID : String
  projectID : String
  rules : List LoadBalancerRule
  warnings : List (String × String)
  deriving DecidableEq

/-- The `loadBalancer` literal built at the top of `getLoadBalancerByName`. -/
def emptyLB (projectID name : String) : LB :=
  { name := name, algorithm := "", hostIDs := [], ipAddr := "", ipAddrID := "",
    networkID := "", projectID := projectID, rules := [], warnings := [] }

/-- One iteration of the rule loop of `getLoadBalancerByName`: insert into
the rules map (overwriting an entry of the same name), warn when the
rule's public IP disagrees with the IP recorded so far, then record this
rule's IP and IP id (so the last rule wins). -/
def accumRule (lb : LB) (r : LoadBalancerRule) : LB :=
  { lb with
    rules := lb.rules.filter (fun x => decide (x.Name ≠ r.Name)) ++ [r],
    warnings := lb.warnings ++
      (if lb.ipAddr ≠ "" ∧ lb.ipAddr ≠ r.Publicip then [(lb.ipAddr, r.Publicip)] else []),
    ipAddr := r.Publicip,
    ipAddrID := r.Publicipid }

/-- Service-port fields read by the source (`port.Protocol`, `port.Port`,
`port.NodePort`). -/
structure ServicePort where
  name : String
  protocol : String
  port : Int
  nodePort : Int
  deriving DecidableEq

/-- One entry of `network.Service` (a CloudStack network capability). -/
structure NetworkServiceEntry where
  Name : String
  deriving DecidableEq

/-- The network fields the source reads. -/
structure Network where
  Vpcid : String
  Service : List NetworkServiceEntry
  deriving DecidableEq

/-- The `corev1.Service` fields the controller reads. -/
structure Service where
  nsName : String
  name : String
  annots : List (String × String)
  ports : List ServicePort
  sessionAffinity : String
  loadBalancerIP : String
  loadBalancerSourceRanges : List String
  deriving DecidableEq

/-- The environment of remote-API responses/oracles for one call: listing
responses, failure switches for each mutating call, platform-chosen ids,
and the initial firewall state. -/
structure CSEnv where
  listLBRules : String → Except GoError (List LoadBalancerRule)
  listVMs : Except GoError (List VirtualMachine)
  listPublicIPs : String → Except GoError (List (String × String))
  getNetworkByID : String → Except GoError Network
  associateIPResult : Except GoError (String × String)
  disassociateFails : Bool
  parseIPNets : List String → Except GoError (List String)
  createLBFails : String → Bool
  newLBRuleId : String → String
  updateLBFails : String → Bool
  deleteLBFails : String → Bool
  assignFails : String → Bool
  fwEnv : FirewallEnv
  fwState : List FirewallRule
  patchFails : Bool
  defaultLBName : String
  projectID : String

/-- `getLoadBalancerByName` from the source: list by the canonical name,
repeat under the legacy name when that produced nothing and a legacy name
exists (adopting the legacy name if the second listing has results), then
accumulate every returned rule. -/
def getLoadBalancerByName (env : CSEnv) (name legacyName : String) :
    Except GoError LB :=
  let lb := emptyLB env.projectID name
  match env.listLBRules name with
  | .error _ => .error .listLBRulesError
  | .ok l =>
    if l.length = 0 then
      if legacyName.length > 0 then
        match env.listLBRules legacyName with
        | .error _ => .error .listLBRulesError
        | .ok l2 =>
          let lb1 := if l2.length > 0 then { lb with name := legacyName } else lb
          .ok (l2.foldl accumRule lb1)
      else .ok lb
    else .ok (l.foldl accumRule lb)

/-! ### Load balancer rule reconciliation -/

/-- `hasLoadBalancerIP` from the source. -/
def hasLoadBalancerIP (lb : LB) : Bool :=
  decide (lb.ipAddr ≠ "" ∧ lb.ipAddrID ≠ "")

/-- `deleteLoadBalancerRule` from the source: remote delete by rule id,
then removal from the in-memory map by rule name. -/
def deleteLoadBalancerRule (env : CSEnv) (lb : LB) (rule : LoadBalancerRule) :
    Except GoError (LB × List CloudAction) :=
  if env.deleteLBFails rule.Id then .error (.deleteLBRuleError rule.Name)
  else
    .ok ({ lb with rules := lb.rules.filter (fun x => decide (x.Name ≠ rule.Name)) },
      [.deleteLBRule rule.Id])

/-- `checkLoadBalancerRule` from the source: an existing rule whose public
IP, private port and public port all match is kept (with an update flag
when algorithm or protocol differ); otherwise it is deleted so the caller
recreates it. -/
def checkLoadBalancerRule (env : CSEnv) (lb : LB) (lbRuleName : String)
    (port : ServicePort) (protocol : LoadBalancerProtocol) :
    Except GoError (LB × Option LoadBalancerRule × Bool × List CloudAction) :=
  match lb.rules.find? (fun r => decide (r.Name = lbRuleName)) with
  | none => .ok (lb, none, false, [])
  | some lbRule =>
    if lbRule.Publicip = lb.ipAddr ∧ lbRule.Privateport = toString port.nodePort ∧
        lbRule.Publicport = toString port.port then
      .ok (lb, some lbRule,
        decide (lbRule.Algorithm ≠ lb.algorithm ∨ lbRule.Protocol ≠ protocol.CSProtocol), [])
    else
      match deleteLoadBalancerRule env lb lbRule with
      | .error e => .error e
      | .ok (lb1, tr) => .ok (lb1, none, false, tr)

/-- `updateLoadBalancerRule` from the source (the rule is present in the
map at every call site; the `none` branch mirrors what a nil map entry
would be, and is never reached in the flows below). -/
def updateLoadBalancerRule (env : CSEnv) (lb : LB) (lbRuleName : String)
    (protocol : LoadBalancerProtocol) : Except GoError (List CloudAction) :=
  match lb.rules.find? (fun r => decide (r.Name = lbRuleName)) with
  | none => .error (.updateLBRuleError lbRuleName)
  | some lbRule =>
    if env.updateLBFails lbRule.Id then .error (.updateLBRuleError lbRuleName)
    else .ok [.updateLBRule lbRule.Id]

/-- `createLoadBalancerRule` from the source; the platform response is
modelled as echoing the request fields, with the platform-chosen id taken
from the environment. -/
def createLoadBalancerRule (env : CSEnv) (lb : LB) (lbRuleName : String)
    (port : ServicePort) (protocol : LoadBalancerProtocol) :
    Except GoError (LoadBalancerRule × List CloudAction) :=
  if env.createLBFails lbRuleName then .error (.createLBRuleError lbRuleName)
  else
    let r : LoadBalancerRule :=
      { Id := env.newLBRuleId lbRuleName, Algorithm := lb.algorithm, Cidrlist := "",
        Name := lbRuleName, Networkid := lb.networkID,
        Privateport := toString port.nodePort, Publicport := toString port.port,
        Publicip := lb.ipAddr, Publicipid := lb.ipAddrID,
        Protocol := protocol.CSProtocol }
    .ok (r, [.createLBRule lbRuleName])

/-- `assignHostsToRule` from the source. -/
def assignHostsToRule (env : CSEnv) (rule : LoadBalancerRule) (hostIDs : List String) :
    Except GoError (List CloudAction) :=
  if env.assignFails rule.Id then .error (.assignHostsError rule.Name)
  else .ok [.assignHosts rule.Id hostIDs]

/-! ### Annotations, protocol mapping, names -/

/-- `ServiceAnnotationLoadBalancerAddress`. -/
def lbAddressKey : String := "service.beta.kubernetes.io/cloudstack-load-balancer-address"

/-- `ServiceAnnotationLoadBalancerLoadbalancerHostname`. -/
def lbHostnameKey : String := "service.beta.kubernetes.io/cloudstack-load-balancer-hostname"

/-- `ServiceAnnotationLoadBalancerProxyProtocol`. -/
def lbProxyProtoKey : String := "service.beta.kubernetes.io/cloudstack-load-balancer-proxy-protocol"

/-- `corev1.AnnotationLoadBalancerSourceRangesKey`. -/
def lbSourceRangesKey : String := "service.beta.kubernetes.io/load-balancer-source-ranges"

/-- Lookup in the Go annotation map (`service.Annotations[key]`). -/
def lookupAnnot : List (String × String) → String → Option String
  | [], _ => none
  | (k', v) :: rest, k => if k' = k then some v else lookupAnnot rest k

/-- Map update (`service.ObjectMeta.Annotations[key] = value`). -/
def setAnnot : List (String × String) → String → String → List (String × String)
  | [], k, v => [(k, v)]
  | (k', v') :: rest, k, v =>
    if k' = k then (k', v) :: rest else (k', v') :: setAnnot rest k v

/-- `reflect.DeepEqual` on two annotation maps: equality as finite maps. -/
def annotMapEq (a b : List (String × String)) : Bool :=
  (a.map Prod.fst ++ b.map Prod.fst).all (fun k => decide (lookupAnnot a k = lookupAnnot b k))

/-- `getStringFromServiceAnnotation` from the source. -/
def getStringAnnot (svc : Service) (key defaultSetting : String) : String :=
  match lookupAnnot svc.annots key with
  | some v => v
  | none => defaultSetting

/-- `getBoolFromServiceAnnotation` from the source. -/
def getBoolAnnot (svc : Service) (key : String) (defaultSetting : Bool) : Bool :=
  match lookupAnnot svc.annots key with
  | some "true" => true
  | some "false" => false
  | some _ => defaultSetting
  | none => defaultSetting

/-- Modelled from the spec: `ProtocolFromServicePort` of the Protocol
Mapper (defined outside `src/`) — a TCP service port with the
proxy-protocol annotation becomes `tcp-proxy`, TCP/UDP map directly, and
anything else is invalid. -/
def ProtocolFromServicePort (port : ServicePort) (svc : Service) : LoadBalancerProtocol :=
  match port.protocol with
  | "TCP" => if getBoolAnnot svc lbProxyProtoKey false then .tcpProxy else .tcp
  | "UDP" => .udp
  | _ => .invalid

/-- Modelled from the spec: `ProtocolFromLoadBalancer` (defined outside
`src/`), parsing the load-balancer wire vocabulary back into the closed
enumeration. -/
def ProtocolFromLoadBalancer (proto : String) : LoadBalancerProtocol :=
  match proto with
  | "tcp" => .tcp
  | "udp" => .udp
  | "tcp-proxy" => .tcpProxy
  | _ => .invalid

/-- `isFirewallSupported` from the source. -/
def isFirewallSupported (services : List NetworkServiceEntry) : Bool :=
  services.any (fun svc => decide (svc.Name = "Firewall"))

/-- Modelled from the spec: `Sprintf255` (defined outside `src/`) caps the
formatted name at the platform's 255-character identifier limit. -/
def sprintf255 (s : String) : String :=
  String.mk (s.data.take 255)

/-- `GetLoadBalancerName` from the source:
`K8s_svc_<cluster>_<namespace>_<service>` through `Sprintf255`. -/
def getLoadBalancerName (clusterName : String) (svc : Service) : String :=
  sprintf255 ("K8s_svc_" ++ clusterName ++ "_" ++ svc.nsName ++ "_" ++ svc.name)

/-- `getLoadBalancerLegacyName` delegates to the external
`cloudprovider.DefaultLoadBalancerName`, whose value the environment
supplies. -/
def getLoadBalancerLegacyName (env : CSEnv) : String :=
  env.defaultLBName

/-- One `corev1.LoadBalancerIngress` entry. -/
structure LoadBalancerIngress where
  ip : String
  hostname : String
  deriving DecidableEq

/-- `corev1.LoadBalancerStatus`. -/
structure LoadBalancerStatus where
  ingress : List LoadBalancerIngress
  deriving DecidableEq

/-- `GetLoadBalancer` from the source, returning (status, exists, error). -/
def getLoadBalancer (env : CSEnv) (clusterName : String) (svc : Service) :
    Option LoadBalancerStatus × Bool × Option GoError :=
  let name := getLoadBalancerName clusterName svc
  let legacyName := getLoadBalancerLegacyName env
  match getLoadBalancerByName env name legacyName with
  | .error e => (none, false, some e)
  | .ok lb =>
    if lb.rules.length = 0 then (none, false, none)
    else (some ⟨[⟨lb.ipAddr, ""⟩]⟩, true, none)

/-! ### IP lifecycle -/

/-- `getPublicIPAddress` from the source: exact-address lookup that must
return exactly one result. -/
def getPublicIPAddress (env : CSEnv) (lb : LB) (loadBalancerIP : String) :
    Except GoError LB :=
  match env.listPublicIPs loadBalancerIP with
  | .error _ => .error .listPublicIPError
  | .ok l =>
    if l.length ≠ 1 then .error (.ipNotFound loadBalancerIP)
    else
      match l with
      | (addr, id) :: _ => .ok { lb with ipAddr := addr, ipAddrID := id }
      | [] => .error (.ipNotFound loadBalancerIP)

/-- `associatePublicIPAddress` from the source: resolve the network (to
pick VPC vs direct network association) and associate a fresh IP. -/
def associatePublicIPAddress (env : CSEnv) (lb : LB) :
    Except GoError (LB × List CloudAction) :=
  match env.getNetworkByID lb.networkID with
  | .error _ => .error .networkError
  | .ok _network =>
    match env.associateIPResult with
    | .error _ => .error .associateIPError
    | .ok (ip, id) => .ok ({ lb with ipAddr := ip, ipAddrID := id }, [.associateIP id])

/-- `getLoadBalancerIP` from the source. -/
def getLoadBalancerIP (env : CSEnv) (lb : LB) (loadBalancerIP : String) :
    Except GoError (LB × List CloudAction) :=
  if loadBalancerIP ≠ "" then
    match getPublicIPAddress env lb loadBalancerIP with
    | .error e => .error e
    | .ok lb1 => .ok (lb1, [])
  else associatePublicIPAddress env lb

/-- `releaseLoadBalancerIP` from the source (`DisassociateIpAddress`). -/
def releaseLoadBalancerIP (env : CSEnv) (lb : LB) :
    List CloudAction × Option GoError :=
  if env.disassociateFails then ([], some .releaseIPError)
  else ([.disassociateIP lb.ipAddrID], none)

/-! ### Source ranges -/

/-- Structural model of Go `strings.TrimSpace` (external standard
library). -/
def goTrim (s : String) : String :=
  String.mk (((s.data.dropWhile Char.isWhitespace).reverse.dropWhile Char.isWhitespace).reverse)

/-- Helper for `strings.Split(s, ",")` on character lists. -/
def splitCommaAux : List Char → List Char → List String
  | [], acc => [String.mk acc.reverse]
  | c :: rest, acc =>
    if c = ',' then String.mk acc.reverse :: splitCommaAux rest []
    else splitCommaAux rest (c :: acc)

/-- `strings.Split(s, ",")` (external standard library). -/
def goSplitComma (s : String) : List String :=
  splitCommaAux s.data []

/-- `getLoadBalancerSourceRanges` from the source; the external
`utilnet.ParseIPNets` + `IPNetSet.StringSlice` pair is the `parseIPNets`
oracle of the environment, returning the normalized CIDR strings. -/
def getLoadBalancerSourceRanges (env : CSEnv) (svc : Service) :
    Except GoError (List String) :=
  if svc.loadBalancerSourceRanges.length > 0 then
    match env.parseIPNets svc.loadBalancerSourceRanges with
    | .error _ => .error .sourceRangesError
    | .ok l => .ok l
  else
    let v := goTrim ((lookupAnnot svc.annots lbSourceRangesKey).getD "")
    let v1 := if v = "" then defaultAllowedCIDR else v
    match env.parseIPNets (goSplitComma v1) with
    | .error _ => .error .sourceRangesError
    | .ok l => .ok l

/-- Model of Go `strconv.ParseInt(s, 10, 32)` (external standard library):
optional sign, decimal digits, 32-bit range check. -/
def goParseInt32 (s : String) : Option Int :=
  let core : List Char → Option Int := fun ds =>
    if ds = [] then none
    else if ds.all Char.isDigit then
      some (ds.foldl (fun n c => n * 10 + ((c.toNat : Int) - 48)) 0)
    else none
  let r : Option Int :=
    match s.data with
    | '-' :: rest => (core rest).map (fun n => -n)
    | '+' :: rest => core rest
    | ds => core ds
  match r with
  | none => none
  | some n => if n < -(2 ^ 31) ∨ 2 ^ 31 ≤ n then none else some n

example : goParseInt32 "80" = some 80 := by decide

example : goParseInt32 "-7" = some (-7) := by decide

example : goParseInt32 "x8" = none := by decide

/-! ### EnsureLoadBalancer -/

/-- Per-port loop state: the in-memory aggregate, the remote firewall
state, and the successful mutations so far. -/
structure PortState where
  lb : LB
  fw : List FirewallRule
  trace : List CloudAction
  deriving DecidableEq

/-- One iteration of the port loop of `EnsureLoadBalancer`: protocol
mapping, rule check, update-in-place or create+assign, network lookup,
source-range resolution, firewall synchronization (skipped when the
network does not advertise the Firewall capability). -/
def ensurePort (env : CSEnv) (svc : Service) (st : PortState) (port : ServicePort) :
    PortState × Option GoError :=
  let protocol := ProtocolFromServicePort port svc
  if protocol = LoadBalancerProtocol.invalid then
    (st, some (.unsupportedProtocol port.protocol))
  else
    let lbRuleName := st.lb.name ++ "-" ++ protocol.CSProtocol ++ "-" ++ toString port.port
    match checkLoadBalancerRule env st.lb lbRuleName port protocol with
    | .error e => (st, some e)
    | .ok (lb1, ruleOpt, needsUpdate, tr1) =>
      let st1 : PortState := ⟨lb1, st.fw, st.trace ++ tr1⟩
      let afterRule : PortState × Option LoadBalancerRule × Option GoError :=
        match ruleOpt with
        | some rule =>
          if needsUpdate then
            match updateLoadBalancerRule env lb1 lbRuleName protocol with
            | .error e => (st1, some rule, some e)
            | .ok tr2 =>
              (⟨{ lb1 with rules := lb1.rules.filter (fun x => decide (x.Name ≠ lbRuleName)) },
                 st1.fw, st1.trace ++ tr2⟩, some rule, none)
          else
            (⟨{ lb1 with rules := lb1.rules.filter (fun x => decide (x.Name ≠ lbRuleName)) },
               st1.fw, st1.trace⟩, some rule, none)
        | none =>
          match createLoadBalancerRule env lb1 lbRuleName port protocol with
          | .error e => (st1, none, some e)
          | .ok (newRule, tr2) =>
            match assignHostsToRule env newRule lb1.hostIDs with
            | .error e => (⟨lb1, st1.fw, st1.trace ++ tr2⟩, some newRule, some e)
            | .ok tr3 => (⟨lb1, st1.fw, st1.trace ++ tr2 ++ tr3⟩, some newRule, none)
      match afterRule with
      | (st2, _, some e) => (st2, some e)
      | (st2, lbRuleOpt, none) =>
        match env.getNetworkByID st2.lb.networkID with
        | .error _ => (st2, some .networkError)
        | .ok network =>
          match getLoadBalancerSourceRanges env svc with
          | .error e => (st2, some e)
          | .ok ranges =>
            match lbRuleOpt with
            | some lbRule =>
              if isFirewallSupported network.Service then
                let r := updateFirewallRule env.fwEnv st2.fw lbRule.Publicipid port.port
                  protocol ranges
                match r.err with
                | some e => (⟨st2.lb, r.fw, st2.trace ++ r.trace⟩, some e)
                | none => (⟨st2.lb, r.fw, st2.trace ++ r.trace⟩, none)
              else (st2, none)
            | none => (st2, none)

/-- The `for _, port := range service.Spec.Ports` loop. -/
def ensurePorts (env : CSEnv) (svc : Service) :
    List ServicePort → PortState → PortState × Option GoError
  | [], st => (st, none)
  | p :: rest, st =>
    match ensurePort env svc st p with
    | (st1, some e) => (st1, some e)
    | (st1, none) => ensurePorts env svc rest st1

/-- The stale-rule cleanup loop after the port loop: delete the firewall
counterpart of every rule still in the map, then the rule itself.  Go
iterates the remaining `lb.rules` map in arbitrary order; the embedding
iterates the snapshot list in order. -/
def cleanupRules (env : CSEnv) :
    List LoadBalancerRule → PortState → PortState × Option GoError
  | [], st => (st, none)
  | r :: rest, st =>
    let protocol := ProtocolFromLoadBalancer r.Protocol
    if protocol = LoadBalancerProtocol.invalid then
      (st, some (.parseProtocolError r.Protocol))
    else
      match goParseInt32 r.Publicport with
      | none => (st, some (.parsePortError r.Publicport))
      | some port =>
        let d := deleteFirewallRule env.fwEnv st.fw r.Publicipid port protocol
        match d.err with
        | some e => (⟨st.lb, d.fw, st.trace ++ d.trace⟩, some e)
        | none =>
          match deleteLoadBalancerRule env st.lb r with
          | .error e => (⟨st.lb, d.fw, st.trace ++ d.trace⟩, some e)
          | .ok (lb1, tr) => cleanupRules env rest ⟨lb1, d.fw, st.trace ++ d.trace ++ tr⟩

instance {ε α : Type} [DecidableEq ε] [DecidableEq α] : DecidableEq (Except ε α) := fun a b =>
  match a, b with
  | .ok x, .ok y =>
    if h : x = y then isTrue (congrArg Except.ok h)
    else isFalse (fun hh => h (Except.ok.inj hh))
  | .error x, .error y =>
    if h : x = y then isTrue (congrArg Except.error h)
    else isFalse (fun hh => h (Except.error.inj hh))
  | .ok _, .error _ => isFalse (fun hh => Except.noConfusion hh)
  | .error _, .ok _ => isFalse (fun hh => Except.noConfusion hh)

/-- Result of a reconciliation call before/after the deferred patch:
status or error, the Service's annotation map, and the trace. -/
structure BodyResult where
  res : Except GoError LoadBalancerStatus
  annots : List (String × String)
  trace : List CloudAction
  deriving DecidableEq

/-- `cs.verifyHosts` with the remote VM listing taken from the
environment. -/
def verifyHostsOf (env : CSEnv) (nodes : List String) :
    Except GoError (List String × String) :=
  match env.listVMs with
  | .error _ => .error .listVMsError
  | .ok vms => verifyHosts vms nodes

/-- The session-affinity switch of `EnsureLoadBalancer`
(`None` → roundrobin, `ClientIP` → source, else unsupported). -/
def affinityAlgorithm : String → Option String
  | "None" => some "roundrobin"
  | "ClientIP" => some "source"
  | _ => none

/-- The body of `EnsureLoadBalancer` once the IP is resolved: set the
address annotation on the Service, run the port loop, delete stale rules,
and compose the final status (hostname annotation wins over the IP). -/
def ensureBody (env : CSEnv) (svc : Service) (lb : LB) : BodyResult :=
  let annots1 := setAnnot svc.annots lbAddressKey lb.ipAddr
  let svc1 : Service := { svc with annots := annots1 }
  match ensurePorts env svc1 svc.ports ⟨lb, env.fwState, []⟩ with
  | (st1, some e) => ⟨.error e, annots1, st1.trace⟩
  | (st1, none) =>
    match cleanupRules env st1.lb.rules st1 with
    | (st2, some e) => ⟨.error e, annots1, st2.trace⟩
    | (st2, none) =>
      let hostname := getStringAnnot svc1 lbHostnameKey ""
      if hostname ≠ "" then ⟨.ok ⟨[⟨"", hostname⟩]⟩, annots1, st2.trace⟩
      else ⟨.ok ⟨[⟨st2.lb.ipAddr, ""⟩]⟩, annots1, st2.trace⟩

/-- `EnsureLoadBalancer` up to (but not including) the final deferred
Service patch: validation, locator, algorithm, host verification, IP
resolution with the compensating release on later failure, body. -/
def ensureCore (env : CSEnv) (clusterName : String) (svc : Service)
    (nodes : List String) : BodyResult :=
  if svc.ports.length = 0 then ⟨.error .noPortsError, svc.annots, []⟩
  else
    let name := getLoadBalancerName clusterName svc
    let legacyName := getLoadBalancerLegacyName env
    match getLoadBalancerByName env name legacyName with
    | .error e => ⟨.error e, svc.annots, []⟩
    | .ok lb0 =>
      match affinityAlgorithm svc.sessionAffinity with
      | none => ⟨.error (.unsupportedAffinity svc.sessionAffinity), svc.annots, []⟩
      | some algo =>
        let lbA := { lb0 with algorithm := algo }
        match verifyHostsOf env nodes with
        | .error e => ⟨.error e, svc.annots, []⟩
        | .ok (ids, net) =>
          let lbB := { lbA with hostIDs := ids, networkID := net }
          if hasLoadBalancerIP lbB then ensureBody env svc lbB
          else
            match getLoadBalancerIP env lbB svc.loadBalancerIP with
            | .error e => ⟨.error e, svc.annots, []⟩
            | .ok (lbC, trIP) =>
              let compensate := decide (lbC.ipAddr ≠ "" ∧ lbC.ipAddr ≠ svc.loadBalancerIP)
              let b := ensureBody env svc lbC
              match b.res with
              | .ok s => ⟨.ok s, b.annots, trIP ++ b.trace⟩
              | .error e =>
                if compensate then
                  let rel := releaseLoadBalancerIP env lbC
                  ⟨.error e, b.annots, trIP ++ b.trace ++ rel.1⟩
                else ⟨.error e, b.annots, trIP ++ b.trace⟩

/-- `utilerrors.NewAggregate` restricted to the two-slot use in
`servicePatcher.Patch`: nils are dropped and a single non-nil error stands
for itself. -/
def newAggregate (e1 e2 : Option GoError) : Option GoError :=
  match e1, e2 with
  | none, none => none
  | some e, none => some e
  | none, some e => some e
  | some a, some b => some (.aggregate a b)

/-- `servicePatcher.Patch`: a no-op returning the primary error when the
annotation maps are `reflect.DeepEqual`; otherwise a single patch request
whose failure is aggregated with the primary error.  (`patchService`'s own
empty-patch check cannot fire on this path: the marshalled services differ
exactly when the annotation maps do.) -/
def patcherPatch (env : CSEnv) (base updated : List (String × String))
    (err : Option GoError) : Option GoError × List CloudAction :=
  if annotMapEq base updated then (err, [])
  else
    let perr : Option GoError := if env.patchFails then some .patchError else none
    (newAggregate err perr, [.patchService])

/-- Final result of `EnsureLoadBalancer` (after the deferred patch). -/
structure EnsureResult where
  res : Except GoError LoadBalancerStatus
  annots : List (String × String)
  trace : List CloudAction
  deriving DecidableEq

/-- `EnsureLoadBalancer` from the source: `ensureCore` followed by the
single deferred `patcher.Patch` against the deep-copied annotation
snapshot.  (In Go the no-ports return happens before the patcher defer is
registered; on that path the annotations are untouched, so the guarded
patch here is the same no-op.)  A patch failure after a successful body is
surfaced as the call's error, matching the deferred
`err = patcher.Patch(ctx, err)` assignment. -/
def ensureLoadBalancer (env : CSEnv) (clusterName : String) (svc : Service)
    (nodes : List String) : EnsureResult :=
  let core := ensureCore env clusterName svc nodes
  let e0 : Option GoError := match core.res with | .error e => some e | .ok _ => none
  let p := patcherPatch env svc.annots core.annots e0
  match p.1 with
  | none => ⟨core.res, core.annots, core.trace ++ p.2⟩
  | some e => ⟨.error e, core.annots, core.trace ++ p.2⟩

/-! ### Auxiliary definitions used by the claim statements and witnesses -/

/-- The firewall-rule identity of the claims: public IP id, firewall
protocol, start port = end port = public port. -/
def fwIdentity (publicIPID : String) (publicPort : Int) (protocol : LoadBalancerProtocol)
    (r : FirewallRule) : Bool :=
  decide (r.Ipaddressid = publicIPID) && matchesProtoPort publicPort protocol r

/-- A benign environment for concrete instantiations: every listing
returns empty/ok values and no mutation fails. -/
def dummyEnv : CSEnv :=
  { listLBRules := fun _ => .ok []
    listVMs := .ok []
    listPublicIPs := fun _ => .ok []
    getNetworkByID := fun _ => .ok ⟨"", []⟩
    associateIPResult := .ok ("10.0.0.1", "ipid1")
    disassociateFails := false
    parseIPNets := fun l => .ok l
    createLBFails := fun _ => false
    newLBRuleId := fun n => n ++ "-id"
    updateLBFails := fun _ => false
    deleteLBFails := fun _ => false
    assignFails := fun _ => false
    fwEnv := ⟨fun _ => false, fun _ => false, fun _ => false, "fw-new"⟩
    fwState := []
    patchFails := false
    defaultLBName := "adefault"
    projectID := "" }

/-- The first NIC's network id (`""` for a VM without NICs; only applied
below to VMs with at least one NIC). -/
def firstNicNet (vm : VirtualMachine) : String :=
  match vm.Nic with
  | [] => ""
  | nic :: _ => nic.Networkid

/-- The matched VMs that `verifyHosts` actually processes: name in the
node-name set after lowering, and at least one NIC. -/
def matchedWithNic (vms : List VirtualMachine) (nodes : List String) :
    List VirtualMachine :=
  vms.filter (fun vm => decide (goToLower vm.Name ∈ hostNamesOf nodes) && !vm.Nic.isEmpty)

/-- The specification's reading of `verifyHosts`: skip zero-NIC VMs, fail
when no backend matches, fail with the cross-network error when the
matched VMs disagree on their first NIC's network, else return the
matched ids and the single shared network. -/
def verifyHostsSpec (vms : List VirtualMachine) (nodes : List String) :
    Except GoError (List String × String) :=
  match matchedWithNic vms nodes with
  | [] => .error .noHostsMatchedError
  | v :: rest =>
    if rest.all (fun w => decide (firstNicNet w = firstNicNet v)) then
      .ok ((v :: rest).map VirtualMachine.Id, firstNicNet v)
    else .error .crossNetworkError

/-- The actions the reconciliation body (port loop, cleanup, firewall
synchronization, rule creation) can emit: everything except the final
Service patch and the compensating IP disassociation. -/
def bodyAction : CloudAction → Bool
  | .patchService => false
  | .disassociateIP _ => false
  | _ => true

/-- A run of `EnsureLoadBalancer` that changes the annotation map (the
address annotation is written on the happy path): one cluster of one
matched VM, a service with one TCP port, no pre-existing rules. -/
def svc9 : Service :=
  { nsName := "ns", name := "s", annots := [], ports := [⟨"p", "TCP", 80, 30080⟩],
    sessionAffinity := "None", loadBalancerIP := "", loadBalancerSourceRanges := [] }

def env9 : CSEnv := { dummyEnv with listVMs := .ok [⟨"vm1", "a", [⟨"net1"⟩]⟩] }

def nodes9 : List String := ["a"]

/-- The run of `svc9`/`nodes9` with rule creation failing remotely: the
body errors after the fresh IP was associated. -/
def env5 : CSEnv :=
  { dummyEnv with
    listVMs := .ok [⟨"vm1", "a", [⟨"net1"⟩]⟩]
    createLBFails := fun _ => true }

/-! ## Soundness of compareStringSlice -/

theorem valC_nil (k : String) : valC [] k = 0 := rfl

theorem valC_cons (a : String) (n : Int) (rest : List (String × Int)) (k : String) :
    valC ((a, n) :: rest) k = if a = k then n else valC rest k := by
  by_cases h : a = k <;> simp [valC, lookupCount, h]

theorem valC_bumpCount (m : List (String × Int)) (a k : String) :
    valC (bumpCount m a) k = valC m k + (if a = k then 1 else 0) := by
  induction m with
  | nil =>
    by_cases h : a = k
    · simp [bumpCount, valC_cons, valC_nil, h]
    · simp [bumpCount, valC_cons, valC_nil, h]
  | cons e rest ih =>
    obtain ⟨b, n⟩ := e
    by_cases hba : b = a
    · subst hba
      by_cases hbk : b = k
      · subst hbk
        simp [bumpCount, valC_cons]
      · simp [bumpCount, valC_cons, hbk]
    · simp only [bumpCount, if_neg hba, valC_cons]
      by_cases hbk : b = k
      · subst hbk
        have hak : ¬ a = b := fun h => hba h.symm
        simp [hak]
      · simp [hbk, ih]

theorem valC_foldl_bumpCount (x : List String) (m : List (String × Int)) (k : String) :
    valC (x.foldl bumpCount m) k = valC m k + (x.count k : Int) := by
  induction x generalizing m with
  | nil => simp
  | cons a rest ih =>
    rw [List.foldl_cons, ih, valC_bumpCount, List.count_cons]
    by_cases h : a = k
    · subst h
      simp only [if_pos rfl, beq_self_eq_true, if_true]
      push_cast
      ring
    · have hka : ¬ k = a := fun hh => h hh.symm
      have hne : (k == a) = false := beq_eq_false_iff_ne.mpr hka
      simp [h, hne]

theorem lookupCount_bumpCount_ne (m : List (String × Int)) (a k : String)
    (h : ¬ k = a) : lookupCount (bumpCount m a) k = lookupCount m k := by
  have hak : ¬ a = k := fun hh => h hh.symm
  induction m with
  | nil => simp [bumpCount, lookupCount, hak]
  | cons e rest ih =>
    obtain ⟨b, n⟩ := e
    by_cases hba : b = a
    · subst hba
      simp [bumpCount, lookupCount, hak]
    · by_cases hbk : b = k
      · subst hbk
        simp [bumpCount, hba, lookupCount]
      · simp [bumpCount, hba, lookupCount, hbk, ih]

theorem countInv_bumpCount (m : List (String × Int)) (a : String) (h : CountInv m) :
    CountInv (bumpCount m a) := by
  induction m with
  | nil => simp [bumpCount, CountInv, lookupCount]
  | cons e rest ih =>
    obtain ⟨b, n⟩ := e
    obtain ⟨hpos, hnone, hrest⟩ := h
    by_cases hba : b = a
    · subst hba
      simp only [bumpCount, if_pos rfl, CountInv]
      exact ⟨by omega, hnone, hrest⟩
    · simp only [bumpCount, if_neg hba, CountInv]
      exact ⟨hpos, (lookupCount_bumpCount_ne rest a b hba).trans hnone, ih hrest⟩

theorem countInv_foldl_bumpCount (x : List String) (m : List (String × Int))
    (h : CountInv m) : CountInv (x.foldl bumpCount m) := by
  induction x generalizing m with
  | nil => simpa
  | cons a rest ih => exact ih _ (countInv_bumpCount m a h)

theorem lookupCount_decCount_none (m : List (String × Int)) (k b : String)
    (h : lookupCount m b = none) : lookupCount (decCount m k) b = none := by
  induction m with
  | nil => simp [decCount, lookupCount]
  | cons e rest ih =>
    obtain ⟨c, n⟩ := e
    by_cases hcb : c = b
    · subst hcb
      simp [lookupCount] at h
    · simp only [lookupCount, if_neg hcb] at h
      by_cases hck : c = k
      · subst hck
        by_cases hn : n - 1 = 0
        · simpa [decCount, hn] using h
        · simpa [decCount, hn, lookupCount, hcb] using h
      · simpa [decCount, hck, lookupCount, hcb] using ih h

theorem countInv_decCount (m : List (String × Int)) (k : String) (h : CountInv m) :
    CountInv (decCount m k) := by
  induction m with
  | nil => simp [decCount, CountInv]
  | cons e rest ih =>
    obtain ⟨b, n⟩ := e
    obtain ⟨hpos, hnone, hrest⟩ := h
    by_cases hbk : b = k
    · subst hbk
      by_cases hn : n - 1 = 0
      · simpa [decCount, hn] using hrest
      · simp only [decCount, if_pos rfl, if_neg hn, CountInv]
        exact ⟨by omega, hnone, hrest⟩
    · simp only [decCount, if_neg hbk, CountInv]
      exact ⟨hpos, lookupCount_decCount_none rest k b hnone, ih hrest⟩

theorem valC_of_lookup_none (m : List (String × Int)) (k : String)
    (h : lookupCount m k = none) : valC m k = 0 := by
  unfold valC
  rw [h]
  rfl

theorem valC_nonneg (m : List (String × Int)) (k : String) (h : CountInv m) :
    0 ≤ valC m k := by
  induction m with
  | nil => simp [valC_nil]
  | cons e rest ih =>
    obtain ⟨b, n⟩ := e
    obtain ⟨hpos, _, hrest⟩ := h
    rw [valC_cons]
    by_cases hbk : b = k
    · simp [hbk]; omega
    · simp [hbk]; exact ih hrest

theorem valC_decCount (m : List (String × Int)) (k : String) (hinv : CountInv m)
    (hk : (lookupCount m k).isSome) (j : String) :
    valC (decCount m k) j = valC m j - (if j = k then 1 else 0) := by
  induction m with
  | nil => simp [lookupCount] at hk
  | cons e rest ih =>
    obtain ⟨b, n⟩ := e
    obtain ⟨hpos, hnone, hrest⟩ := hinv
    by_cases hbk : b = k
    · subst hbk
      have hvrest : valC rest b = 0 := valC_of_lookup_none rest b hnone
      by_cases hn : n - 1 = 0
      · have hn1 : n = 1 := by omega
        subst hn1
        by_cases hjk : j = b
        · subst hjk
          simp [decCount, valC_cons, hvrest]
        · have hbj : ¬ b = j := fun h => hjk h.symm
          simp [decCount, valC_cons, hbj, hjk]
      · by_cases hjk : j = b
        · subst hjk
          simp [decCount, hn, valC_cons]
        · have hbj : ¬ b = j := fun h => hjk h.symm
          simp [decCount, hn, valC_cons, hbj, hjk]
    · have hkrest : (lookupCount rest k).isSome := by
        simpa [lookupCount, hbk] using hk
      have ihr := ih hrest hkrest
      by_cases hjb : b = j
      · subst hjb
        have hjk : ¬ b = k := hbk
        simp [decCount, hbk, valC_cons, hjk]
      · simp only [decCount, hbk, if_false, valC_cons, if_neg hjb]
        rw [ihr]

theorem valC_lookup_isSome (m : List (String × Int)) (k : String) (hinv : CountInv m)
    (hk : (lookupCount m k).isSome) : 1 ≤ valC m k := by
  induction m with
  | nil => simp [lookupCount] at hk
  | cons e rest ih =>
    obtain ⟨b, n⟩ := e
    obtain ⟨hpos, _, hrest⟩ := hinv
    by_cases hbk : b = k
    · rw [valC_cons, if_pos hbk]
      exact hpos
    · rw [valC_cons, if_neg hbk]
      exact ih hrest (by simpa [lookupCount, hbk] using hk)

theorem countInv_empty_of_valC_zero (m : List (String × Int)) (h : CountInv m)
    (hz : ∀ k, valC m k = 0) : m = [] := by
  cases m with
  | nil => rfl
  | cons e rest =>
    obtain ⟨b, n⟩ := e
    obtain ⟨hpos, _, _⟩ := h
    have := hz b
    rw [valC_cons, if_pos rfl] at this
    omega

/-- The consume loop preserves the invariant and subtracts exactly the
counts of the consumed list, which must all be available. -/
theorem consumeCounts_spec (ys : List String) (m m' : List (String × Int))
    (hinv : CountInv m) (h : consumeCounts m ys = some m') :
    CountInv m' ∧ (∀ j, valC m' j = valC m j - (ys.count j : Int)) ∧
      (∀ j, (ys.count j : Int) ≤ valC m j) := by
  induction ys generalizing m with
  | nil =>
    simp only [consumeCounts, Option.some.injEq] at h
    subst h
    refine ⟨hinv, fun j => by simp, fun j => by simpa using valC_nonneg m j hinv⟩
  | cons k ks ih =>
    simp only [consumeCounts] at h
    by_cases hk : (lookupCount m k).isSome
    · rw [if_pos hk] at h
      have hinv' := countInv_decCount m k hinv
      obtain ⟨hi, hval, hbound⟩ := ih (decCount m k) hinv' h
      refine ⟨hi, fun j => ?_, fun j => ?_⟩
      · rw [hval j, valC_decCount m k hinv hk j]
        by_cases hjk : j = k
        · subst hjk
          rw [if_pos rfl, List.count_cons_self]
          push_cast
          ring
        · rw [if_neg hjk, sub_zero, List.count_cons_of_ne hjk]
      · have hb := hbound j
        rw [valC_decCount m k hinv hk j] at hb
        have h1 := valC_lookup_isSome m k hinv hk
        by_cases hjk : j = k
        · subst hjk
          rw [if_pos rfl] at hb
          rw [List.count_cons_self]
          push_cast
          omega
        · rw [if_neg hjk, sub_zero] at hb
          rw [List.count_cons_of_ne hjk]
          exact hb
    · rw [if_neg hk] at h
      exact absurd h (by simp)

/-- Soundness of `compareStringSlice`: a `true` result really means the two
slices are permutations of one another (equal as multisets). -/
theorem compareStringSlice_perm (x y : List String)
    (h : compareStringSlice x y = true) : x.Perm y := by
  unfold compareStringSlice at h
  by_cases hlen : x.length ≠ y.length
  · rw [if_pos hlen] at h
    exact absurd h (by simp)
  · rw [if_neg hlen] at h
    cases hc : consumeCounts (x.foldl bumpCount []) y with
    | none => rw [hc] at h; exact absurd h (by simp)
    | some m' =>
      rw [hc] at h
      have hm' : m' = [] := by
        have : m'.length = 0 := by simpa using h
        exact List.length_eq_zero.mp this
      subst hm'
      have hinv0 : CountInv (x.foldl bumpCount []) :=
        countInv_foldl_bumpCount x [] (by simp [CountInv])
      obtain ⟨_, hval, _⟩ := consumeCounts_spec y _ _ hinv0 hc
      rw [List.perm_iff_count]
      intro a
      have hv := hval a
      rw [valC_foldl_bumpCount x [] a, valC_nil] at hv
      have hcast : ((x.count a : Int)) = (y.count a : Int) := by omega
      exact_mod_cast hcast

/-! ## Properties of symmetricDifference (claim C4) -/

theorem mem_insertNew (m : List String) (k x : String) :
    x ∈ insertNew m k ↔ x ∈ m ∨ x = k := by
  unfold insertNew
  by_cases h : k ∈ m
  · rw [if_pos h]
    constructor
    · exact Or.inl
    · rintro (hx | rfl)
      · exact hx
      · exact h
  · rw [if_neg h]
    simp

theorem nodup_insertNew (m : List String) (k : String) (h : m.Nodup) :
    (insertNew m k).Nodup := by
  unfold insertNew
  by_cases hk : k ∈ m
  · rwa [if_pos hk]
  · rw [if_neg hk]
    exact List.Nodup.append h (List.nodup_singleton k) (by simpa using hk)

theorem mem_foldl_insertNew (D : List String) (m : List String) (x : String) :
    x ∈ D.foldl insertNew m ↔ x ∈ m ∨ x ∈ D := by
  induction D generalizing m with
  | nil => simp
  | cons a rest ih =>
    rw [List.foldl_cons, ih, mem_insertNew]
    simp only [List.mem_cons]
    tauto

theorem nodup_foldl_insertNew (D : List String) (m : List String) (h : m.Nodup) :
    (D.foldl insertNew m).Nodup := by
  induction D generalizing m with
  | nil => simpa
  | cons a rest ih => exact ih _ (nodup_insertNew m a h)

theorem symDiffLoop_assign_mem (C : List VirtualMachine) (m rem : List String)
    (hm : m.Nodup) (x : String) :
    x ∈ (symDiffLoop m C rem).1 ↔ x ∈ m ∧ x ∉ vmIds C := by
  induction C generalizing m rem with
  | nil => simp [symDiffLoop, vmIds]
  | cons inst rest ih =>
    by_cases hin : inst.Id ∈ m
    · simp only [symDiffLoop, if_pos hin]
      rw [ih (m.erase inst.Id) rem (hm.erase inst.Id)]
      rw [List.Nodup.mem_erase_iff hm]
      simp only [vmIds, List.map_cons, List.mem_cons]
      constructor
      · rintro ⟨⟨hne, hx⟩, hnr⟩
        refine ⟨hx, fun h => ?_⟩
        rcases h with h1 | h2
        · exact hne h1
        · exact hnr (by simpa [vmIds] using h2)
      · rintro ⟨hx, hnr⟩
        exact ⟨⟨fun h => hnr (Or.inl h), hx⟩, fun h => hnr (Or.inr (by simpa [vmIds] using h))⟩
    · simp only [symDiffLoop, if_neg hin]
      rw [ih m _ hm]
      simp only [vmIds, List.map_cons, List.mem_cons]
      constructor
      · rintro ⟨hx, hnr⟩
        refine ⟨hx, fun h => ?_⟩
        rcases h with h1 | h2
        · exact hin (h1 ▸ hx)
        · exact hnr (by simpa [vmIds] using h2)
      · rintro ⟨hx, hnr⟩
        exact ⟨hx, fun h => hnr (Or.inr (by simpa [vmIds] using h))⟩

theorem symDiffLoop_remove_subset (C : List VirtualMachine) (m rem : List String) (x : String)
    (hx : x ∈ (symDiffLoop m C rem).2) : x ∈ rem ∨ x ∈ vmIds C := by
  induction C generalizing m rem with
  | nil =>
    simp only [symDiffLoop] at hx
    exact Or.inl hx
  | cons inst rest ih =>
    by_cases hin : inst.Id ∈ m
    · simp only [symDiffLoop, if_pos hin] at hx
      rcases ih _ _ hx with h | h
      · exact Or.inl h
      · exact Or.inr (by simp [vmIds]; right; simpa [vmIds] using h)
    · simp only [symDiffLoop, if_neg hin] at hx
      rcases ih _ _ hx with h | h
      · rcases List.mem_append.mp h with h1 | h1
        · exact Or.inl h1
        · refine Or.inr ?_
          have : x = inst.Id := by simpa using h1
          simp [vmIds, this]
      · exact Or.inr (by simp [vmIds]; right; simpa [vmIds] using h)

theorem symDiffLoop_disjoint (C : List VirtualMachine) (m rem : List String)
    (hdisj : ∀ y ∈ rem, y ∉ m) (x : String)
    (hx : x ∈ (symDiffLoop m C rem).1) : x ∉ (symDiffLoop m C rem).2 := by
  induction C generalizing m rem with
  | nil =>
    simp only [symDiffLoop] at hx ⊢
    exact fun hr => hdisj x hr hx
  | cons inst rest ih =>
    by_cases hin : inst.Id ∈ m
    · simp only [symDiffLoop, if_pos hin] at hx ⊢
      exact ih _ _ (fun y hy hmem => hdisj y hy (List.mem_of_mem_erase hmem)) hx
    · simp only [symDiffLoop, if_neg hin] at hx ⊢
      refine ih _ _ ?_ hx
      intro y hy
      rcases List.mem_append.mp hy with h | h
      · exact hdisj y h
      · have hyi : y = inst.Id := by simpa using h
        subst hyi
        exact hin

theorem symDiffLoop_remove_mem (C : List VirtualMachine) (m rem : List String)
    (hm : m.Nodup) (hC : (vmIds C).Nodup) (x : String) :
    x ∈ (symDiffLoop m C rem).2 ↔ x ∈ rem ∨ (x ∈ vmIds C ∧ x ∉ m) := by
  induction C generalizing m rem with
  | nil => simp [symDiffLoop, vmIds]
  | cons inst rest ih =>
    have hCc : (inst.Id :: vmIds rest).Nodup := hC
    have hC1 : inst.Id ∉ vmIds rest := (List.nodup_cons.mp hCc).1
    have hC2 : (vmIds rest).Nodup := (List.nodup_cons.mp hCc).2
    have hcons : vmIds (inst :: rest) = inst.Id :: vmIds rest := rfl
    have herase : ∀ y, y ∈ m.erase inst.Id ↔ y ≠ inst.Id ∧ y ∈ m :=
      fun y => List.Nodup.mem_erase_iff hm
    by_cases hin : inst.Id ∈ m
    · simp only [symDiffLoop, if_pos hin]
      rw [ih (m.erase inst.Id) rem (hm.erase inst.Id) hC2, hcons]
      simp only [List.mem_cons, herase]
      by_cases hxi : x = inst.Id
      · subst hxi
        tauto
      · tauto
    · simp only [symDiffLoop, if_neg hin]
      rw [ih m (rem ++ [inst.Id]) hm hC2, hcons]
      simp only [List.mem_cons, List.mem_append, List.mem_singleton]
      by_cases hxi : x = inst.Id
      · subst hxi
        tauto
      · tauto

/-- **C4 (corrected: the `remove = C − D` half needs a duplicate-free
instance list).** `symmetricDifference(D, C)` returns `assign = D − C` as
sets; every removed id comes from `C`; `assign` and `remove` are disjoint;
and when the current instance list carries no duplicate ids,
`remove = C − D` as sets. -/
theorem C4_symmetricDifference (D : List String) (C : List VirtualMachine) :
    (∀ x, x ∈ (symmetricDifference D C).1 ↔ x ∈ D ∧ x ∉ vmIds C) ∧
    (∀ x ∈ (symmetricDifference D C).2, x ∈ vmIds C) ∧
    (∀ x ∈ (symmetricDifference D C).1, x ∉ (symmetricDifference D C).2) ∧
    ((vmIds C).Nodup → ∀ x, x ∈ (symmetricDifference D C).2 ↔ x ∈ vmIds C ∧ x ∉ D) := by
  have hnodup : (D.foldl insertNew []).Nodup := nodup_foldl_insertNew D [] (by simp)
  have hmem : ∀ x, x ∈ D.foldl insertNew [] ↔ x ∈ D := by
    intro x
    rw [mem_foldl_insertNew]
    simp
  refine ⟨fun x => ?_, fun x hx => ?_, fun x hx => ?_, fun hC x => ?_⟩
  · unfold symmetricDifference
    rw [symDiffLoop_assign_mem C _ [] hnodup, hmem]
  · unfold symmetricDifference at hx
    rcases symDiffLoop_remove_subset C _ [] x hx with h | h
    · simp at h
    · exact h
  · unfold symmetricDifference at hx ⊢
    exact symDiffLoop_disjoint C _ [] (by simp) x hx
  · unfold symmetricDifference
    rw [symDiffLoop_remove_mem C _ [] hnodup hC, hmem]
    simp

/-- **C4, counterexample.** With desired list `["a"]` and a current
instance list containing the id `"a"` twice, the code removes `"a"` even
though `"a"` is in the desired set, so `remove ≠ C − D`: the claim as
stated (for every current instance list) is false. -/
theorem C4_symmetricDifference_cex :
    "a" ∈ (symmetricDifference ["a"] [⟨"a", "vm", []⟩, ⟨"a", "vm", []⟩]).2 ∧
      "a" ∈ ["a"] := by
  decide

theorem C4_symmetricDifference_witness :
    "b" ∈ (symmetricDifference ["a"] [⟨"b", "vm", []⟩]).2 :=
  ((C4_symmetricDifference ["a"] [⟨"b", "vm", []⟩]).2.2.2 (by decide) "b").mpr (by decide)

/-- **C8 (amended: the boolean does not report change).** Whenever
`updateFirewallRule` returns without error its boolean result is `true`,
whether or not any firewall rule was created or deleted. -/
theorem C8_updateFirewallRule (env : FirewallEnv) (fw : List FirewallRule)
    (publicIPID : String) (publicPort : Int) (protocol : LoadBalancerProtocol)
    (allowedCIDRs : List String)
    (h : (updateFirewallRule env fw publicIPID publicPort protocol allowedCIDRs).err = none) :
    (updateFirewallRule env fw publicIPID publicPort protocol allowedCIDRs).changed = true := by
  unfold updateFirewallRule at h ⊢
  by_cases hl : env.listFails publicIPID
  · simp [hl] at h
  · simp only [hl, Bool.false_eq_true, if_false] at h ⊢
    set mtch := (((listFirewallFor fw publicIPID).filter
        (matchesProtoPort publicPort protocol)).find?
          (fun r => compareStringSlice r.Cidrlist
            (if allowedCIDRs.length = 0 then [defaultAllowedCIDR] else allowedCIDRs)))
      with hmtch
    cases hm : mtch with
    | some m => simp [hm]
    | none =>
      rw [hm] at h
      by_cases hc : env.createFails publicIPID
      · simp [hc] at h
      · simp [hc]

theorem C8_updateFirewallRule_witness :
    (updateFirewallRule ⟨fun _ => false, fun _ => false, fun _ => false, "n1"⟩ []
      "ip" 80 .tcp []).changed = true :=
  C8_updateFirewallRule ⟨fun _ => false, fun _ => false, fun _ => false, "n1"⟩ []
    "ip" 80 .tcp [] (by decide)

/-- **C8, counterexample.** When a rule with a multiset-equal CIDR list
already exists and no other rule matches the identity, the call succeeds
without creating or deleting anything (state and trace unchanged), yet it
still reports `true` — so the boolean does not report whether a change
occurred. -/
theorem C8_updateFirewallRule_cex :
    (updateFirewallRule ⟨fun _ => false, fun _ => false, fun _ => false, "new"⟩
        [⟨"r1", "tcp", 80, 80, ["0.0.0.0/0"], "ip1"⟩] "ip1" 80 .tcp []) =
      ⟨[⟨"r1", "tcp", 80, 80, ["0.0.0.0/0"], "ip1"⟩], true, [], none⟩ := by
  decide

/-- When every scheduled deletion succeeds, the delete loop removes
exactly the scheduled ids, resets the error, and records one action per
rule. -/
theorem deleteFirewallLoop_all_ok (env : FirewallEnv) (toDelete : List FirewallRule) :
    ∀ (fw : List FirewallRule) (e0 : Option GoError) (tr : List CloudAction),
    (∀ r ∈ toDelete, env.deleteFails r.Id = false) →
    deleteFirewallLoop env fw toDelete e0 tr =
      (fw.filter (fun x => decide (x.Id ∉ toDelete.map FirewallRule.Id)),
       (if toDelete = [] then e0 else none),
       tr ++ toDelete.map (fun r => CloudAction.deleteFirewall r.Id)) := by
  induction toDelete with
  | nil =>
    intro fw e0 tr _
    simp [deleteFirewallLoop]
  | cons r rest ih =>
    intro fw e0 tr h
    have hr : env.deleteFails r.Id = false := h r (by simp)
    simp only [deleteFirewallLoop, hr, Bool.false_eq_true, if_false]
    rw [ih _ none _ (fun y hy => h y (List.mem_cons_of_mem _ hy))]
    have hfw : (fw.filter (fun x => decide (x.Id ≠ r.Id))).filter
        (fun x => decide (x.Id ∉ rest.map FirewallRule.Id)) =
        fw.filter (fun x => decide (x.Id ∉ (r :: rest).map FirewallRule.Id)) := by
      rw [List.filter_filter]
      refine List.filter_congr ?_
      intro x _
      by_cases h1 : x.Id = r.Id <;> by_cases h2 : x.Id ∈ rest.map FirewallRule.Id <;>
        simp [h1, h2]
    rw [hfw]
    simp

/-- **C1 (amended: exactly-one needs every attempted deletion to
succeed).** When `updateFirewallRule` is given a listing with
duplicate-free rule ids, the listing succeeds, every deletion it attempts
succeeds, and the call returns without error, then exactly one firewall
rule remains for the identity (public IP id, firewall protocol,
start = end = public port), and its CIDR list is multiset-equal to the
desired list (an empty desired list first defaulting to `0.0.0.0/0`). -/
theorem C1_updateFirewallRule (env : FirewallEnv) (fw : List FirewallRule)
    (publicIPID : String) (publicPort : Int) (protocol : LoadBalancerProtocol)
    (allowedCIDRs : List String)
    (hnodup : (fw.map FirewallRule.Id).Nodup)
    (hlist : env.listFails publicIPID = false)
    (hdel : ∀ r ∈ fw, env.deleteFails r.Id = false)
    (herr : (updateFirewallRule env fw publicIPID publicPort protocol allowedCIDRs).err = none) :
    ∃ kept,
      ((updateFirewallRule env fw publicIPID publicPort protocol allowedCIDRs).fw.filter
        (fwIdentity publicIPID publicPort protocol)) = [kept] ∧
      kept.Cidrlist.Perm
        (if allowedCIDRs.length = 0 then [defaultAllowedCIDR] else allowedCIDRs) := by
  unfold updateFirewallRule at herr ⊢
  simp only [hlist, Bool.false_eq_true, if_false] at herr ⊢
  set allowed := (if allowedCIDRs.length = 0 then [defaultAllowedCIDR] else allowedCIDRs)
    with hallowed
  set filtered := ((listFirewallFor fw publicIPID).filter
    (matchesProtoPort publicPort protocol)) with hfiltered
  set mtch := filtered.find? (fun r => compareStringSlice r.Cidrlist allowed) with hmtch
  have hmemf : ∀ x, x ∈ filtered ↔
      (x ∈ fw ∧ fwIdentity publicIPID publicPort protocol x = true) := by
    intro x
    rw [hfiltered]
    unfold listFirewallFor fwIdentity
    simp only [List.mem_filter, Bool.and_eq_true, decide_eq_true_eq]
    tauto
  have hfwnodup : fw.Nodup := hnodup.of_map
  have hinj : ∀ x ∈ fw, ∀ y ∈ fw, x.Id = y.Id → x = y :=
    fun x hx y hy hxy => List.inj_on_of_nodup_map hnodup hx hy hxy
  cases hm : mtch with
  | some m =>
    rw [hm] at herr
    have hfind : filtered.find? (fun r => compareStringSlice r.Cidrlist allowed) = some m :=
      hmtch.symm.trans hm
    have hmF : m ∈ filtered := List.mem_of_find?_eq_some hfind
    have hmCmp : compareStringSlice m.Cidrlist allowed = true := by
      have h0 := List.find?_some hfind
      simpa using h0
    have hmfw : m ∈ fw := ((hmemf m).mp hmF).1
    have hmId : fwIdentity publicIPID publicPort protocol m = true := ((hmemf m).mp hmF).2
    have hdelOK : ∀ r ∈ filtered.filter (fun r => decide (r.Id ≠ m.Id)),
        env.deleteFails r.Id = false := by
      intro r hrm
      have hrf : r ∈ filtered := List.mem_of_mem_filter hrm
      exact hdel r ((hmemf r).mp hrf).1
    rw [deleteFirewallLoop_all_ok env _ fw none [] hdelOK]
    refine ⟨m, ?_, compareStringSlice_perm _ _ hmCmp⟩
    rw [List.filter_filter]
    have hpt : ∀ x ∈ fw,
        (fwIdentity publicIPID publicPort protocol x &&
          decide (x.Id ∉ (filtered.filter
            (fun r => decide (r.Id ≠ m.Id))).map FirewallRule.Id)) = (x == m) := by
      intro x hx
      by_cases hxm : x = m
      · have hsurv : x.Id ∉ (filtered.filter
            (fun r => decide (r.Id ≠ m.Id))).map FirewallRule.Id := by
          intro hmem
          rcases List.mem_map.mp hmem with ⟨y, hy, hyx⟩
          have hyid : y.Id ≠ m.Id := by
            have h2 := (List.mem_filter.mp hy).2
            simpa using h2
          exact hyid (hyx.trans (congrArg FirewallRule.Id hxm))
        have hxId : fwIdentity publicIPID publicPort protocol x = true := hxm ▸ hmId
        simp [hsurv, hxId, hxm, hmId]
      · have hne : (x == m) = false := beq_eq_false_iff_ne.mpr hxm
        rw [hne]
        by_cases hid : fwIdentity publicIPID publicPort protocol x = true
        · have hxf : x ∈ filtered := (hmemf x).mpr ⟨hx, hid⟩
          have hxid : x.Id ≠ m.Id := fun hcontra => hxm (hinj x hx m hmfw hcontra)
          have hxdel : x ∈ filtered.filter (fun r => decide (r.Id ≠ m.Id)) :=
            List.mem_filter.mpr ⟨hxf, by simpa using hxid⟩
          have hxin : x.Id ∈ (filtered.filter
              (fun r => decide (r.Id ≠ m.Id))).map FirewallRule.Id :=
            List.mem_map.mpr ⟨x, hxdel, rfl⟩
          have hdec : (decide (x.Id ∉ (filtered.filter
              (fun r => decide (r.Id ≠ m.Id))).map FirewallRule.Id)) = false := by
            simp only [decide_eq_false_iff_not, not_not]
            exact hxin
          rw [hdec, Bool.and_false]
        · have hid' : fwIdentity publicIPID publicPort protocol x = false := by
            cases hfi : fwIdentity publicIPID publicPort protocol x
            · rfl
            · exact absurd hfi hid
          simp [hid']
    have hflt := List.filter_congr hpt
    rw [hflt, List.filter_beq]
    have hcount : fw.count m = 1 := by
      have hle : fw.count m ≤ 1 := List.nodup_iff_count_le_one.mp hfwnodup m
      have hge : 0 < fw.count m := List.count_pos_iff.mpr hmfw
      omega
    rw [hcount]
    rfl
  | none =>
    rw [hm] at herr
    have hdelOK : ∀ r ∈ filtered, env.deleteFails r.Id = false :=
      fun r hrf => hdel r ((hmemf r).mp hrf).1
    by_cases hc : env.createFails publicIPID
    · simp [hc] at herr
    · simp only [hc, Bool.false_eq_true, if_false] at herr ⊢
      rw [deleteFirewallLoop_all_ok env filtered fw none [] hdelOK]
      refine ⟨⟨env.newRuleId, protocol.IPProtocol, publicPort, publicPort,
        allowed, publicIPID⟩, ?_, List.Perm.refl _⟩
      rw [List.filter_append, List.filter_filter]
      have hnil : fw.filter (fun a =>
          fwIdentity publicIPID publicPort protocol a &&
            decide (a.Id ∉ filtered.map FirewallRule.Id)) = [] := by
        rw [List.filter_eq_nil_iff]
        intro x hx hcontra
        have hcontra' : fwIdentity publicIPID publicPort protocol x = true ∧
            decide (x.Id ∉ filtered.map FirewallRule.Id) = true := by
          simpa using hcontra
        obtain ⟨hid, hsurv⟩ := hcontra'
        have hxf : x ∈ filtered := (hmemf x).mpr ⟨hx, hid⟩
        have hxin : x.Id ∈ filtered.map FirewallRule.Id := List.mem_map.mpr ⟨x, hxf, rfl⟩
        simp [hxin] at hsurv
      rw [hnil]
      have hone : List.filter (fwIdentity publicIPID publicPort protocol)
          [⟨env.newRuleId, protocol.IPProtocol, publicPort, publicPort,
            allowed, publicIPID⟩] =
          [⟨env.newRuleId, protocol.IPProtocol, publicPort, publicPort,
            allowed, publicIPID⟩] := by
        simp [fwIdentity, matchesProtoPort]
      rw [hone]
      rfl

theorem C1_updateFirewallRule_witness :
    ∃ kept,
      ((updateFirewallRule ⟨fun _ => false, fun _ => false, fun _ => false, "r9"⟩
          [⟨"r1", "tcp", 80, 80, ["1.2.3.4/32"], "ip1"⟩] "ip1" 80 .tcp
          ["10.0.0.0/24"]).fw.filter (fwIdentity "ip1" 80 .tcp)) = [kept] ∧
      kept.Cidrlist.Perm
        (if (["10.0.0.0/24"] : List String).length = 0 then [defaultAllowedCIDR]
          else ["10.0.0.0/24"]) :=
  C1_updateFirewallRule ⟨fun _ => false, fun _ => false, fun _ => false, "r9"⟩
    [⟨"r1", "tcp", 80, 80, ["1.2.3.4/32"], "ip1"⟩] "ip1" 80 .tcp ["10.0.0.0/24"]
    (by decide) (by decide) (by decide) (by decide)

/-- **C1, counterexample.** The claim as stated fails: a non-matching rule
whose best-effort deletion fails is left behind, and a subsequent
successful creation resets the error variable, so the call returns
without error while two rules for the identity remain. -/
theorem C1_updateFirewallRule_cex :
    ((updateFirewallRule ⟨fun _ => false, fun i => i == "r1", fun _ => false, "r2"⟩
        [⟨"r1", "tcp", 80, 80, ["1.2.3.4/32"], "ip1"⟩] "ip1" 80 .tcp
        ["10.0.0.0/24"]).err = none) ∧
    (((updateFirewallRule ⟨fun _ => false, fun i => i == "r1", fun _ => false, "r2"⟩
        [⟨"r1", "tcp", 80, 80, ["1.2.3.4/32"], "ip1"⟩] "ip1" 80 .tcp
        ["10.0.0.0/24"]).fw.filter (fwIdentity "ip1" 80 .tcp)).length = 2) := by
  decide

/-! ## Properties of checkLoadBalancerRule (claim C2) -/

/-- **C2.** For a service port whose rule name is present in the rule map:
when the existing rule's public IP, private (node) port and public port
all match, `checkLoadBalancerRule` returns that rule untouched and asks
for an update-in-place exactly when algorithm or protocol differ; when
any of those immutable fields differs (and the remote delete succeeds) it
deletes the rule and returns no rule, so the caller recreates it. -/
theorem C2_checkLoadBalancerRule (env : CSEnv) (lb : LB) (lbRuleName : String)
    (port : ServicePort) (protocol : LoadBalancerProtocol) (rule : LoadBalancerRule)
    (hfind : lb.rules.find? (fun r => decide (r.Name = lbRuleName)) = some rule) :
    ((rule.Publicip = lb.ipAddr ∧ rule.Privateport = toString port.nodePort ∧
        rule.Publicport = toString port.port) →
      checkLoadBalancerRule env lb lbRuleName port protocol =
        .ok (lb, some rule,
          decide (rule.Algorithm ≠ lb.algorithm ∨ rule.Protocol ≠ protocol.CSProtocol), [])) ∧
    (¬(rule.Publicip = lb.ipAddr ∧ rule.Privateport = toString port.nodePort ∧
        rule.Publicport = toString port.port) →
      env.deleteLBFails rule.Id = false →
      checkLoadBalancerRule env lb lbRuleName port protocol =
        .ok ({ lb with rules := lb.rules.filter (fun x => decide (x.Name ≠ rule.Name)) },
          none, false, [.deleteLBRule rule.Id])) := by
  constructor
  · intro hmatch
    unfold checkLoadBalancerRule
    rw [hfind]
    simp only [if_pos hmatch]
  · intro hmatch hdelOK
    unfold checkLoadBalancerRule
    rw [hfind]
    simp only [if_neg hmatch]
    unfold deleteLoadBalancerRule
    rw [hdelOK]
    simp

theorem C2_checkLoadBalancerRule_witness :
    checkLoadBalancerRule dummyEnv
      ⟨"K", "roundrobin", [], "1.2.3.4", "ipid", "net", "",
        [⟨"id1", "roundrobin", "", "K-tcp-80", "net", "31000", "80", "1.2.3.4", "ipid", "tcp"⟩],
        []⟩
      "K-tcp-80" ⟨"p", "TCP", 80, 31000⟩ .tcp =
      .ok (⟨"K", "roundrobin", [], "1.2.3.4", "ipid", "net", "",
        [⟨"id1", "roundrobin", "", "K-tcp-80", "net", "31000", "80", "1.2.3.4", "ipid", "tcp"⟩],
        []⟩,
        some ⟨"id1", "roundrobin", "", "K-tcp-80", "net", "31000", "80", "1.2.3.4", "ipid", "tcp"⟩,
        decide ((("roundrobin" : String) ≠ "roundrobin") ∨
          (("tcp" : String) ≠ LoadBalancerProtocol.CSProtocol .tcp)), []) :=
  (C2_checkLoadBalancerRule dummyEnv
    ⟨"K", "roundrobin", [], "1.2.3.4", "ipid", "net", "",
      [⟨"id1", "roundrobin", "", "K-tcp-80", "net", "31000", "80", "1.2.3.4", "ipid", "tcp"⟩],
      []⟩
    "K-tcp-80" ⟨"p", "TCP", 80, 31000⟩ .tcp
    ⟨"id1", "roundrobin", "", "K-tcp-80", "net", "31000", "80", "1.2.3.4", "ipid", "tcp"⟩
    (by decide)).1 (by decide)

/-! ## Properties of getLoadBalancerByName (claims C3 and C7) -/

theorem accumRule_name (lb : LB) (r : LoadBalancerRule) : (accumRule lb r).name = lb.name :=
  rfl

theorem foldl_accumRule_name (l : List LoadBalancerRule) (lb : LB) :
    (l.foldl accumRule lb).name = lb.name := by
  induction l generalizing lb with
  | nil => rfl
  | cons r rest ih => rw [List.foldl_cons, ih, accumRule_name]

/-- **C3.** Legacy-name fallback of the Locator: when the canonical
listing yields zero rules and a non-empty legacy name is supplied, the
listing is repeated under the legacy name, and when that second listing
has at least one rule the resolved name becomes the legacy name; when the
canonical listing has at least one rule the resolved name stays
canonical. -/
theorem C3_getLoadBalancerByName (env : CSEnv) (name legacyName : String) :
    (∀ l2, env.listLBRules name = .ok [] → legacyName.length > 0 →
      env.listLBRules legacyName = .ok l2 → l2 ≠ [] →
      ∃ lb, getLoadBalancerByName env name legacyName = .ok lb ∧ lb.name = legacyName) ∧
    (∀ l, env.listLBRules name = .ok l → l ≠ [] →
      ∃ lb, getLoadBalancerByName env name legacyName = .ok lb ∧ lb.name = name) := by
  constructor
  · intro l2 h1 hleg h2 hne
    unfold getLoadBalancerByName
    rw [h1]
    simp only [List.length_nil, if_pos rfl, if_pos hleg]
    rw [h2]
    have hlen : l2.length > 0 := List.length_pos.mpr hne
    simp only [if_pos hlen]
    exact ⟨_, rfl, foldl_accumRule_name l2 _⟩
  · intro l h1 hne
    unfold getLoadBalancerByName
    rw [h1]
    have hlen : ¬ l.length = 0 := fun h0 => hne (List.length_eq_zero.mp h0)
    simp only [if_neg hlen]
    exact ⟨_, rfl, foldl_accumRule_name l _⟩

theorem C3_getLoadBalancerByName_witness :
    ∃ lb, getLoadBalancerByName
        { dummyEnv with listLBRules := fun k =>
            if k = "legacy" then .ok [⟨"i1", "r", "", "n1", "net", "1", "1", "1.1.1.1", "a", "tcp"⟩] else .ok [] }
        "canon" "legacy" = .ok lb ∧ lb.name = "legacy" :=
  (C3_getLoadBalancerByName
    { dummyEnv with listLBRules := fun k =>
        if k = "legacy" then .ok [⟨"i1", "r", "", "n1", "net", "1", "1", "1.1.1.1", "a", "tcp"⟩] else .ok [] }
    "canon" "legacy").1
    [⟨"i1", "r", "", "n1", "net", "1", "1", "1.1.1.1", "a", "tcp"⟩]
    (by decide) (by decide) (by decide) (by decide)

theorem foldl_accumRule_ip (l : List LoadBalancerRule) (lb : LB) (r : LoadBalancerRule)
    (h : l.getLast? = some r) :
    (l.foldl accumRule lb).ipAddr = r.Publicip ∧
      (l.foldl accumRule lb).ipAddrID = r.Publicipid := by
  induction l generalizing lb with
  | nil => simp at h
  | cons a rest ih =>
    cases rest with
    | nil =>
      have ha : a = r := by simpa using h
      subst ha
      exact ⟨rfl, rfl⟩
    | cons b rest2 =>
      have h2 : (b :: rest2).getLast? = some r := by rwa [List.getLast?_cons_cons] at h
      rw [List.foldl_cons]
      exact ih _ h2

/-- **C7 (amended: the IP comes from the last rule, not the first).**
When the canonical listing returns a non-empty rule list,
`getLoadBalancerByName` succeeds — rules disagreeing on their public IP
only produce a logged warning, never an error — and the load balancer's
`ipAddr`/`ipAddrID` are those of the last rule encountered (each rule
overwrites the previous pair). -/
theorem C7_getLoadBalancerByName (env : CSEnv) (name legacyName : String)
    (l : List LoadBalancerRule) (r : LoadBalancerRule)
    (hlist : env.listLBRules name = .ok l) (hlast : l.getLast? = some r) :
    ∃ lb, getLoadBalancerByName env name legacyName = .ok lb ∧
      lb.ipAddr = r.Publicip ∧ lb.ipAddrID = r.Publicipid := by
  have hne : l ≠ [] := by
    intro h0
    rw [h0] at hlast
    simp at hlast
  unfold getLoadBalancerByName
  rw [hlist]
  have hlen : ¬ l.length = 0 := fun h0 => hne (List.length_eq_zero.mp h0)
  simp only [if_neg hlen]
  exact ⟨_, rfl, (foldl_accumRule_ip l _ r hlast).1, (foldl_accumRule_ip l _ r hlast).2⟩

theorem C7_getLoadBalancerByName_witness :
    ∃ lb, getLoadBalancerByName
        { dummyEnv with
            listLBRules := fun _ => .ok [⟨"i1", "r", "", "n1", "net", "1", "1", "9.9.9.9", "pid", "tcp"⟩] }
        "canon" "legacy" = .ok lb ∧ lb.ipAddr = "9.9.9.9" ∧ lb.ipAddrID = "pid" :=
  C7_getLoadBalancerByName
    { dummyEnv with
        listLBRules := fun _ => .ok [⟨"i1", "r", "", "n1", "net", "1", "1", "9.9.9.9", "pid", "tcp"⟩] }
    "canon" "legacy"
    [⟨"i1", "r", "", "n1", "net", "1", "1", "9.9.9.9", "pid", "tcp"⟩]
    ⟨"i1", "r", "", "n1", "net", "1", "1", "9.9.9.9", "pid", "tcp"⟩
    (by decide) (by decide)

/-- **C7, counterexample.** Two rules carrying different public IPs: the
call still succeeds, but `ipAddr` is the second (last) rule's IP, not the
first rule's `1.1.1.1` as the claim states. -/
theorem C7_getLoadBalancerByName_cex :
    (Except.map (fun lb => lb.ipAddr)
      (getLoadBalancerByName
        { dummyEnv with
            listLBRules := fun _ => .ok [⟨"i1", "r", "", "n1", "net", "1", "1", "1.1.1.1", "a", "tcp"⟩,
              ⟨"i2", "r", "", "n2", "net", "1", "1", "2.2.2.2", "b", "tcp"⟩] }
        "canon" "legacy")) = .ok "2.2.2.2" := by
  decide

/-! ## Properties of GetLoadBalancer (claim C10) -/

theorem accumRule_rules_ne (lb : LB) (r : LoadBalancerRule) : (accumRule lb r).rules ≠ [] := by
  intro hcon
  have hlen := congrArg List.length hcon
  simp [accumRule] at hlen

theorem foldl_accumRule_rules_ne (l : List LoadBalancerRule) (lb : LB)
    (h : l ≠ [] ∨ lb.rules ≠ []) : (l.foldl accumRule lb).rules ≠ [] := by
  induction l generalizing lb with
  | nil =>
    rcases h with h | h
    · exact absurd rfl h
    · exact h
  | cons a rest ih =>
    rw [List.foldl_cons]
    refine ih (accumRule lb a) ?_
    by_cases hr : rest = []
    · exact Or.inr (accumRule_rules_ne lb a)
    · exact Or.inl hr

theorem string_length_pos_of_ne (s : String) (h : s ≠ "") : s.length > 0 := by
  cases s with
  | mk data =>
    cases data with
    | nil => exact absurd rfl h
    | cons c cs => simp [String.length]

/-- Locator outcome when the canonical listing has at least one rule. -/
theorem getLoadBalancerByName_ok_canonical (env : CSEnv) (name legacyName : String)
    (a : LoadBalancerRule) (rest : List LoadBalancerRule)
    (h : env.listLBRules name = .ok (a :: rest)) :
    getLoadBalancerByName env name legacyName =
      .ok ((a :: rest).foldl accumRule (emptyLB env.projectID name)) := by
  unfold getLoadBalancerByName
  rw [h]
  simp

/-- Locator outcome when both listings are empty. -/
theorem getLoadBalancerByName_ok_empty (env : CSEnv) (name legacyName : String)
    (hlegLen : legacyName.length > 0)
    (h1 : env.listLBRules name = .ok []) (h2 : env.listLBRules legacyName = .ok []) :
    getLoadBalancerByName env name legacyName = .ok (emptyLB env.projectID name) := by
  unfold getLoadBalancerByName
  rw [h1]
  simp [h2, hlegLen]

/-- Locator outcome when only the legacy listing has rules. -/
theorem getLoadBalancerByName_ok_legacy (env : CSEnv) (name legacyName : String)
    (hlegLen : legacyName.length > 0) (b : LoadBalancerRule) (rest : List LoadBalancerRule)
    (h1 : env.listLBRules name = .ok [])
    (h2 : env.listLBRules legacyName = .ok (b :: rest)) :
    getLoadBalancerByName env name legacyName =
      .ok ((b :: rest).foldl accumRule
        { emptyLB env.projectID name with name := legacyName }) := by
  unfold getLoadBalancerByName
  rw [h1]
  simp [h2, hlegLen]

/-- Locator outcome when a listing fails. -/
theorem getLoadBalancerByName_error (env : CSEnv) (name legacyName : String)
    (hfail : (∃ e, env.listLBRules name = .error e) ∨
      (env.listLBRules name = .ok [] ∧ legacyName.length > 0 ∧
        ∃ e, env.listLBRules legacyName = .error e)) :
    getLoadBalancerByName env name legacyName = .error .listLBRulesError := by
  unfold getLoadBalancerByName
  rcases hfail with ⟨e, he⟩ | ⟨h1, hlen, e, he⟩
  · rw [he]
  · rw [h1]
    simp [he, hlen]

/-- **C10.** `GetLoadBalancer` returns (no status, exists = false, no
error) exactly when both the canonical and the legacy listing return zero
rules; and whenever the locator succeeds with at least one rule, the
result is exists = true with a single ingress entry carrying the resolved
IP and an empty hostname — the hostname annotation honored by
`EnsureLoadBalancer` is never consulted here. -/
theorem C10_getLoadBalancer (env : CSEnv) (clusterName : String) (svc : Service)
    (hleg : env.defaultLBName ≠ "") :
    (getLoadBalancer env clusterName svc = (none, false, none) ↔
      (env.listLBRules (getLoadBalancerName clusterName svc) = .ok [] ∧
        env.listLBRules env.defaultLBName = .ok [])) ∧
    (∀ lb, getLoadBalancerByName env (getLoadBalancerName clusterName svc)
        env.defaultLBName = .ok lb → lb.rules ≠ [] →
      getLoadBalancer env clusterName svc = (some ⟨[⟨lb.ipAddr, ""⟩]⟩, true, none)) := by
  have hlegLen : env.defaultLBName.length > 0 := string_length_pos_of_ne _ hleg
  have hpart2 : ∀ lb, getLoadBalancerByName env (getLoadBalancerName clusterName svc)
      env.defaultLBName = .ok lb → lb.rules ≠ [] →
      getLoadBalancer env clusterName svc = (some ⟨[⟨lb.ipAddr, ""⟩]⟩, true, none) := by
    intro lb hok hrules
    have hrules0 : ¬ lb.rules.length = 0 := fun h0 => hrules (List.length_eq_zero.mp h0)
    simp only [getLoadBalancer, getLoadBalancerLegacyName]
    rw [hok]
    simp [hrules0]
  refine ⟨⟨?_, ?_⟩, hpart2⟩
  · intro hres
    cases hcan : env.listLBRules (getLoadBalancerName clusterName svc) with
    | error e =>
      exfalso
      have hloc := getLoadBalancerByName_error env (getLoadBalancerName clusterName svc)
        env.defaultLBName (Or.inl ⟨e, hcan⟩)
      simp only [getLoadBalancer, getLoadBalancerLegacyName] at hres
      rw [hloc] at hres
      simp at hres
    | ok l =>
      cases l with
      | cons a rest =>
        exfalso
        have hloc := getLoadBalancerByName_ok_canonical env _ env.defaultLBName a rest hcan
        have hrules := foldl_accumRule_rules_ne (a :: rest)
          (emptyLB env.projectID (getLoadBalancerName clusterName svc)) (Or.inl (by simp))
        have := hpart2 _ hloc hrules
        rw [this] at hres
        simp at hres
      | nil =>
        refine ⟨rfl, ?_⟩
        cases hlegl : env.listLBRules env.defaultLBName with
        | error e =>
          exfalso
          have hloc := getLoadBalancerByName_error env (getLoadBalancerName clusterName svc)
            env.defaultLBName (Or.inr ⟨hcan, hlegLen, e, hlegl⟩)
          simp only [getLoadBalancer, getLoadBalancerLegacyName] at hres
          rw [hloc] at hres
          simp at hres
        | ok l2 =>
          cases l2 with
          | nil => rfl
          | cons b rest2 =>
            exfalso
            have hloc := getLoadBalancerByName_ok_legacy env _ env.defaultLBName hlegLen
              b rest2 hcan hlegl
            have hrules := foldl_accumRule_rules_ne (b :: rest2)
              { emptyLB env.projectID (getLoadBalancerName clusterName svc) with
                name := env.defaultLBName } (Or.inl (by simp))
            have := hpart2 _ hloc hrules
            rw [this] at hres
            simp at hres
  · rintro ⟨h1, h2⟩
    have hloc := getLoadBalancerByName_ok_empty env (getLoadBalancerName clusterName svc)
      env.defaultLBName hlegLen h1 h2
    simp only [getLoadBalancer, getLoadBalancerLegacyName]
    rw [hloc]
    simp [emptyLB]

theorem C10_getLoadBalancer_witness :
    getLoadBalancer dummyEnv "c" ⟨"ns", "svc", [], [], "None", "", []⟩ =
      (none, false, none) :=
  ((C10_getLoadBalancer dummyEnv "c" ⟨"ns", "svc", [], [], "None", "", []⟩
    (by decide)).1).mpr ⟨rfl, rfl⟩

/-! ## Properties of verifyHosts (claim C6) -/

/-- Running the VM loop with a non-empty recorded network `n`: it succeeds
with the matched ids appended exactly when every remaining matched VM's
first NIC agrees with `n`. -/
theorem verifyHostsLoop_run (hostNames : List String) (vms : List VirtualMachine)
    (ids : List String) (n : String) (hn : n ≠ "") :
    verifyHostsLoop hostNames vms ids n =
      (if (vms.filter (fun vm => decide (goToLower vm.Name ∈ hostNames) &&
            !vm.Nic.isEmpty)).all (fun w => decide (firstNicNet w = n)) then
        .ok (ids ++ (vms.filter (fun vm => decide (goToLower vm.Name ∈ hostNames) &&
          !vm.Nic.isEmpty)).map VirtualMachine.Id, n)
      else .error .crossNetworkError) := by
  induction vms generalizing ids with
  | nil => simp [verifyHostsLoop]
  | cons vm rest ih =>
    by_cases hmatch : goToLower vm.Name ∈ hostNames
    · cases hnic : vm.Nic with
      | nil =>
        have hskip : (decide (goToLower vm.Name ∈ hostNames) && !vm.Nic.isEmpty) = false := by
          simp [hnic]
        simp only [verifyHostsLoop, if_pos hmatch, hnic]
        rw [ih ids]
        simp [List.filter_cons, hskip]
      | cons nic nics =>
        have hkeep : (decide (goToLower vm.Name ∈ hostNames) && !vm.Nic.isEmpty) = true := by
          simp [hnic, hmatch]
        have hfn : firstNicNet vm = nic.Networkid := by simp [firstNicNet, hnic]
        by_cases hsame : nic.Networkid = n
        · simp only [verifyHostsLoop, if_pos hmatch, hnic]
          rw [if_neg (by simp [hsame])]
          rw [hsame, ih (ids ++ [vm.Id])]
          have hvm : firstNicNet vm = n := hfn.trans hsame
          rw [List.filter_cons, if_pos hkeep]
          simp only [List.all_cons, List.map_cons, hvm]
          simp [List.append_assoc]
        · simp only [verifyHostsLoop, if_pos hmatch, hnic]
          rw [if_pos ⟨hn, fun hcon => hsame hcon.symm⟩]
          have hallf : ((vm :: rest).filter (fun vm =>
              decide (goToLower vm.Name ∈ hostNames) && !vm.Nic.isEmpty)).all
              (fun w => decide (firstNicNet w = n)) = false := by
            rw [List.filter_cons, if_pos hkeep, List.all_cons]
            simp only [hfn]
            simp [hsame]
          simp only [hallf]
          simp
    · have hskip : (decide (goToLower vm.Name ∈ hostNames) && !vm.Nic.isEmpty) = false := by
        simp [hmatch]
      simp only [verifyHostsLoop, if_neg hmatch]
      rw [ih ids]
      simp [List.filter_cons, hskip]

/-- Running the VM loop from the initial empty network. -/
theorem verifyHostsLoop_start (hostNames : List String) (vms : List VirtualMachine)
    (ids : List String)
    (hne : ∀ vm ∈ vms, (decide (goToLower vm.Name ∈ hostNames) && !vm.Nic.isEmpty) = true →
      firstNicNet vm ≠ "") :
    verifyHostsLoop hostNames vms ids "" =
      (match vms.filter (fun vm => decide (goToLower vm.Name ∈ hostNames) &&
          !vm.Nic.isEmpty) with
       | [] => .ok (ids, "")
       | v :: rest =>
         if rest.all (fun w => decide (firstNicNet w = firstNicNet v)) then
           .ok (ids ++ (v :: rest).map VirtualMachine.Id, firstNicNet v)
         else .error .crossNetworkError) := by
  induction vms generalizing ids with
  | nil => simp [verifyHostsLoop]
  | cons vm rest ih =>
    by_cases hmatch : goToLower vm.Name ∈ hostNames
    · cases hnic : vm.Nic with
      | nil =>
        have hskip : (decide (goToLower vm.Name ∈ hostNames) && !vm.Nic.isEmpty) = false := by
          simp [hnic]
        simp only [verifyHostsLoop, if_pos hmatch, hnic]
        rw [ih ids (fun w hw => hne w (List.mem_cons_of_mem _ hw))]
        simp [List.filter_cons, hskip]
      | cons nic nics =>
        have hkeep : (decide (goToLower vm.Name ∈ hostNames) && !vm.Nic.isEmpty) = true := by
          simp [hnic, hmatch]
        have hfn : firstNicNet vm = nic.Networkid := by simp [firstNicNet, hnic]
        have hvn : nic.Networkid ≠ "" := by
          have := hne vm (List.mem_cons_self vm rest) hkeep
          rwa [hfn] at this
        simp only [verifyHostsLoop, if_pos hmatch, hnic]
        rw [if_neg (by simp)]
        rw [verifyHostsLoop_run hostNames rest (ids ++ [vm.Id]) nic.Networkid hvn]
        rw [List.filter_cons, if_pos hkeep]
        simp only [hfn]
        simp [List.append_assoc]
    · have hskip : (decide (goToLower vm.Name ∈ hostNames) && !vm.Nic.isEmpty) = false := by
        simp [hmatch]
      simp only [verifyHostsLoop, if_neg hmatch]
      rw [ih ids (fun w hw => hne w (List.mem_cons_of_mem _ hw))]
      simp [List.filter_cons, hskip]

/-- **C6 (amended: matched VMs must carry non-empty first-NIC network
ids).** Under that proviso `verifyHosts` matches the specification's
reading exactly: zero-NIC matched VMs are skipped, two matched VMs with
different first-NIC network ids produce the cross-network error, an empty
match set produces the no-hosts error, and otherwise the matched ids and
the shared network id are returned. -/
theorem C6_verifyHosts (vms : List VirtualMachine) (nodes : List String)
    (hne : ∀ vm ∈ matchedWithNic vms nodes, firstNicNet vm ≠ "") :
    verifyHosts vms nodes = verifyHostsSpec vms nodes := by
  unfold verifyHosts verifyHostsSpec
  rw [verifyHostsLoop_start (hostNamesOf nodes) vms []
    (fun vm hvm hmat => hne vm (List.mem_filter.mpr ⟨hvm, hmat⟩))]
  cases hf : vms.filter (fun vm => decide (goToLower vm.Name ∈ hostNamesOf nodes) &&
      !vm.Nic.isEmpty) with
  | nil =>
    have hm : matchedWithNic vms nodes = [] := hf
    rw [hm]
    simp
  | cons v rest =>
    have hm : matchedWithNic vms nodes = v :: rest := hf
    rw [hm]
    have hv : firstNicNet v ≠ "" := hne v (by rw [hm]; exact List.mem_cons_self v rest)
    simp only [List.nil_append]
    by_cases hall : rest.all (fun w => decide (firstNicNet w = firstNicNet v))
    · rw [if_pos hall]
      have hlen : ¬ ((v :: rest).map VirtualMachine.Id).length = 0 := by simp
      have hvlen : ¬ (firstNicNet v).length = 0 := by
        intro h0
        apply hv
        cases hsv : firstNicNet v with
        | mk data =>
          rw [hsv] at h0
          cases data with
          | nil => rfl
          | cons c cs => simp [String.length] at h0
      simp [hlen, hvlen]
    · rw [if_neg hall]

theorem C6_verifyHosts_witness :
    verifyHosts [⟨"id1", "a", [⟨"X"⟩]⟩, ⟨"id2", "b", [⟨"X"⟩]⟩, ⟨"id3", "b", []⟩]
        ["a.example.com", "B"] =
      verifyHostsSpec [⟨"id1", "a", [⟨"X"⟩]⟩, ⟨"id2", "b", [⟨"X"⟩]⟩, ⟨"id3", "b", []⟩]
        ["a.example.com", "B"] :=
  C6_verifyHosts [⟨"id1", "a", [⟨"X"⟩]⟩, ⟨"id2", "b", [⟨"X"⟩]⟩, ⟨"id3", "b", []⟩]
    ["a.example.com", "B"] (by decide)

/-- **C6, counterexample.** Two matched VMs (both with NICs) carry the
different first-NIC network ids `""` and `"X"`, yet `verifyHosts` does
not fail with the cross-network error — the guard only fires when the
previously recorded id is non-empty — so the claim as stated (for every
inventory) is false. -/
theorem C6_verifyHosts_cex :
    verifyHosts [⟨"id1", "a", [⟨""⟩]⟩, ⟨"id2", "b", [⟨"X"⟩]⟩] ["a", "b"] =
      .ok (["id1", "id2"], "X") := by
  decide

/-! ## Trace shape of EnsureLoadBalancer (claims C9 and C5) -/

theorem no_patch_of_bodyAction (tr : List CloudAction) (h : tr.all bodyAction = true) :
    CloudAction.patchService ∉ tr := by
  intro hmem
  have h2 := List.all_eq_true.mp h _ hmem
  simp [bodyAction] at h2

theorem no_disassociate_of_bodyAction (tr : List CloudAction)
    (h : tr.all bodyAction = true) (i : String) : CloudAction.disassociateIP i ∉ tr := by
  intro hmem
  have h2 := List.all_eq_true.mp h _ hmem
  simp [bodyAction] at h2

theorem deleteFirewallLoop_trace_all (env : FirewallEnv) (l fw : List FirewallRule)
    (e : Option GoError) (tr : List CloudAction) (htr : tr.all bodyAction = true) :
    ((deleteFirewallLoop env fw l e tr).2.2).all bodyAction = true := by
  induction l generalizing fw e tr with
  | nil => simpa [deleteFirewallLoop] using htr
  | cons r rest ih =>
    unfold deleteFirewallLoop
    split
    · exact ih _ _ _ htr
    · exact ih _ _ _ (by simp [htr, bodyAction])

theorem updateFirewallRule_trace_all (env : FirewallEnv) (fw : List FirewallRule)
    (ipid : String) (port : Int) (protocol : LoadBalancerProtocol) (cidrs : List String) :
    ((updateFirewallRule env fw ipid port protocol cidrs).trace).all bodyAction = true := by
  simp only [updateFirewallRule]
  split
  · rfl
  · split
    · exact deleteFirewallLoop_trace_all env _ fw none [] rfl
    · split
      · exact deleteFirewallLoop_trace_all env _ fw none [] rfl
      · rw [List.all_append]
        rw [deleteFirewallLoop_trace_all env _ fw none [] rfl]
        rfl

theorem deleteFirewallRule_trace_all (env : FirewallEnv) (fw : List FirewallRule)
    (ipid : String) (port : Int) (protocol : LoadBalancerProtocol) :
    ((deleteFirewallRule env fw ipid port protocol).trace).all bodyAction = true := by
  simp only [deleteFirewallRule]
  split
  · rfl
  · exact deleteFirewallLoop_trace_all env _ fw none [] rfl

theorem deleteLoadBalancerRule_trace_all (env : CSEnv) (lb : LB)
    (rule : LoadBalancerRule) (lb1 : LB) (tr : List CloudAction)
    (h : deleteLoadBalancerRule env lb rule = .ok (lb1, tr)) :
    tr.all bodyAction = true := by
  unfold deleteLoadBalancerRule at h
  split at h
  · exact Except.noConfusion h
  · simp only [Except.ok.injEq, Prod.mk.injEq] at h
    obtain ⟨-, h2⟩ := h
    subst h2
    rfl

theorem checkLoadBalancerRule_trace_all (env : CSEnv) (lb : LB) (nm : String)
    (port : ServicePort) (protocol : LoadBalancerProtocol) (lb1 : LB)
    (ro : Option LoadBalancerRule) (b : Bool) (tr : List CloudAction)
    (h : checkLoadBalancerRule env lb nm port protocol = .ok (lb1, ro, b, tr)) :
    tr.all bodyAction = true := by
  unfold checkLoadBalancerRule at h
  cases hf : lb.rules.find? (fun r => decide (r.Name = nm)) with
  | none =>
    simp only [hf] at h
    simp only [Except.ok.injEq, Prod.mk.injEq] at h
    obtain ⟨-, -, -, h4⟩ := h
    subst h4
    rfl
  | some lbRule =>
    simp only [hf] at h
    split at h
    · simp only [Except.ok.injEq, Prod.mk.injEq] at h
      obtain ⟨-, -, -, h4⟩ := h
      subst h4
      rfl
    · cases hd : deleteLoadBalancerRule env lb lbRule with
      | error e =>
        simp only [hd] at h
        exact Except.noConfusion h
      | ok q =>
        obtain ⟨lb2, tr2⟩ := q
        simp only [hd] at h
        simp only [Except.ok.injEq, Prod.mk.injEq] at h
        obtain ⟨-, -, -, h4⟩ := h
        subst h4
        exact deleteLoadBalancerRule_trace_all env lb lbRule lb2 tr2 hd

theorem updateLoadBalancerRule_trace_all (env : CSEnv) (lb : LB) (nm : String)
    (protocol : LoadBalancerProtocol) (tr : List CloudAction)
    (h : updateLoadBalancerRule env lb nm protocol = .ok tr) :
    tr.all bodyAction = true := by
  unfold updateLoadBalancerRule at h
  split at h
  · exact Except.noConfusion h
  · split at h
    · exact Except.noConfusion h
    · simp only [Except.ok.injEq] at h
      subst h
      rfl

theorem createLoadBalancerRule_trace_all (env : CSEnv) (lb : LB) (nm : String)
    (port : ServicePort) (protocol : LoadBalancerProtocol) (r : LoadBalancerRule)
    (tr : List CloudAction)
    (h : createLoadBalancerRule env lb nm port protocol = .ok (r, tr)) :
    tr.all bodyAction = true := by
  unfold createLoadBalancerRule at h
  split at h
  · exact Except.noConfusion h
  · simp only [Except.ok.injEq, Prod.mk.injEq] at h
    obtain ⟨-, h2⟩ := h
    subst h2
    rfl

theorem assignHostsToRule_trace_all (env : CSEnv) (rule : LoadBalancerRule)
    (hostIDs : List String) (tr : List CloudAction)
    (h : assignHostsToRule env rule hostIDs = .ok tr) : tr.all bodyAction = true := by
  unfold assignHostsToRule at h
  split at h
  · exact Except.noConfusion h
  · simp only [Except.ok.injEq] at h
    subst h
    rfl

theorem getLoadBalancerIP_trace_all (env : CSEnv) (lb : LB) (ip : String) (lb1 : LB)
    (tr : List CloudAction) (h : getLoadBalancerIP env lb ip = .ok (lb1, tr)) :
    tr.all bodyAction = true := by
  unfold getLoadBalancerIP at h
  split at h
  · split at h
    · exact Except.noConfusion h
    · simp only [Except.ok.injEq, Prod.mk.injEq] at h
      obtain ⟨-, h2⟩ := h
      subst h2
      rfl
  · unfold associatePublicIPAddress at h
    split at h
    · exact Except.noConfusion h
    · split at h
      · exact Except.noConfusion h
      · simp only [Except.ok.injEq, Prod.mk.injEq] at h
        obtain ⟨-, h2⟩ := h
        subst h2
        rfl

theorem ensurePort_trace_all (env : CSEnv) (svc : Service) (st : PortState)
    (p : ServicePort) (stOut : PortState) (eo : Option GoError)
    (h : ensurePort env svc st p = (stOut, eo))
    (hst : st.trace.all bodyAction = true) : stOut.trace.all bodyAction = true := by
  simp only [ensurePort] at h
  by_cases hp : ProtocolFromServicePort p svc = LoadBalancerProtocol.invalid
  · rw [if_pos hp] at h
    injection h with h1 h2
    subst h1
    exact hst
  · rw [if_neg hp] at h
    cases hchk : checkLoadBalancerRule env st.lb
        (st.lb.name ++ "-" ++ (ProtocolFromServicePort p svc).CSProtocol ++ "-" ++
          toString p.port) p (ProtocolFromServicePort p svc) with
    | error e =>
      simp only [hchk] at h
      injection h with h1 h2
      subst h1
      exact hst
    | ok q =>
      obtain ⟨lb1, ruleOpt, needsUpdate, tr1⟩ := q
      have htr1 : tr1.all bodyAction = true :=
        checkLoadBalancerRule_trace_all env st.lb _ p _ lb1 ruleOpt needsUpdate tr1 hchk
      simp only [hchk] at h
      cases ruleOpt with
      | some rule =>
        cases needsUpdate with
        | true =>
          simp only [eq_self_iff_true, if_true] at h
          cases hupd : updateLoadBalancerRule env lb1
              (st.lb.name ++ "-" ++ (ProtocolFromServicePort p svc).CSProtocol ++ "-" ++
                toString p.port) (ProtocolFromServicePort p svc) with
          | error e =>
            simp only [hupd] at h
            injection h with h1 h2
            subst h1
            simp [hst, htr1]
          | ok tr2 =>
            have htr2 : tr2.all bodyAction = true :=
              updateLoadBalancerRule_trace_all env lb1 _ _ tr2 hupd
            simp only [hupd] at h
            cases hnet : env.getNetworkByID lb1.networkID with
            | error e2 =>
              simp only [hnet] at h
              injection h with h1 h2
              subst h1
              simp [hst, htr1, htr2]
            | ok network =>
              simp only [hnet] at h
              cases hsr : getLoadBalancerSourceRanges env svc with
              | error e2 =>
                simp only [hsr] at h
                injection h with h1 h2
                subst h1
                simp [hst, htr1, htr2]
              | ok ranges =>
                simp only [hsr] at h
                split at h
                · split at h
                  · injection h with h1 h2
                    subst h1
                    simp [hst, htr1, htr2, updateFirewallRule_trace_all]
                  · injection h with h1 h2
                    subst h1
                    simp [hst, htr1, htr2, updateFirewallRule_trace_all]
                · injection h with h1 h2
                  subst h1
                  simp [hst, htr1, htr2]
        | false =>
          simp only [Bool.false_eq_true, if_false] at h
          cases hnet : env.getNetworkByID lb1.networkID with
          | error e2 =>
            simp only [hnet] at h
            injection h with h1 h2
            subst h1
            simp [hst, htr1]
          | ok network =>
            simp only [hnet] at h
            cases hsr : getLoadBalancerSourceRanges env svc with
            | error e2 =>
              simp only [hsr] at h
              injection h with h1 h2
              subst h1
              simp [hst, htr1]
            | ok ranges =>
              simp only [hsr] at h
              split at h
              · split at h
                · injection h with h1 h2
                  subst h1
                  simp [hst, htr1, updateFirewallRule_trace_all]
                · injection h with h1 h2
                  subst h1
                  simp [hst, htr1, updateFirewallRule_trace_all]
              · injection h with h1 h2
                subst h1
                simp [hst, htr1]
      | none =>
        cases hcr : createLoadBalancerRule env lb1
            (st.lb.name ++ "-" ++ (ProtocolFromServicePort p svc).CSProtocol ++ "-" ++
              toString p.port) p (ProtocolFromServicePort p svc) with
        | error e =>
          simp only [hcr] at h
          injection h with h1 h2
          subst h1
          simp [hst, htr1]
        | ok q2 =>
          obtain ⟨newRule, tr2⟩ := q2
          have htr2 : tr2.all bodyAction = true :=
            createLoadBalancerRule_trace_all env lb1 _ p _ newRule tr2 hcr
          simp only [hcr] at h
          cases has : assignHostsToRule env newRule lb1.hostIDs with
          | error e =>
            simp only [has] at h
            injection h with h1 h2
            subst h1
            simp [hst, htr1, htr2]
          | ok tr3 =>
            have htr3 : tr3.all bodyAction = true :=
              assignHostsToRule_trace_all env newRule lb1.hostIDs tr3 has
            simp only [has] at h
            cases hnet : env.getNetworkByID lb1.networkID with
            | error e2 =>
              simp only [hnet] at h
              injection h with h1 h2
              subst h1
              simp [hst, htr1, htr2, htr3]
            | ok network =>
              simp only [hnet] at h
              cases hsr : getLoadBalancerSourceRanges env svc with
              | error e2 =>
                simp only [hsr] at h
                injection h with h1 h2
                subst h1
                simp [hst, htr1, htr2, htr3]
              | ok ranges =>
                simp only [hsr] at h
                split at h
                · split at h
                  · injection h with h1 h2
                    subst h1
                    simp [hst, htr1, htr2, htr3, updateFirewallRule_trace_all]
                  · injection h with h1 h2
                    subst h1
                    simp [hst, htr1, htr2, htr3, updateFirewallRule_trace_all]
                · injection h with h1 h2
                  subst h1
                  simp [hst, htr1, htr2, htr3]

theorem ensurePorts_trace_all (env : CSEnv) (svc : Service) (ports : List ServicePort)
    (st : PortState) (hst : st.trace.all bodyAction = true) :
    ((ensurePorts env svc ports st).1.trace).all bodyAction = true := by
  induction ports generalizing st with
  | nil => simpa [ensurePorts] using hst
  | cons p rest ih =>
    unfold ensurePorts
    cases hp : ensurePort env svc st p with
    | mk st1 eo =>
      have h1 : st1.trace.all bodyAction = true :=
        ensurePort_trace_all env svc st p st1 eo hp hst
      cases eo with
      | some e => simpa [hp] using h1
      | none =>
        simp only [hp]
        exact ih st1 h1

theorem cleanupRules_trace_all (env : CSEnv) (rules : List LoadBalancerRule)
    (st : PortState) (hst : st.trace.all bodyAction = true) :
    ((cleanupRules env rules st).1.trace).all bodyAction = true := by
  induction rules generalizing st with
  | nil => simpa [cleanupRules] using hst
  | cons r rest ih =>
    simp only [cleanupRules]
    split
    · exact hst
    · split
      · exact hst
      · split
        · simp [hst, deleteFirewallRule_trace_all]
        · split
          · simp [hst, deleteFirewallRule_trace_all]
          · rename_i lb1 tr heq
            refine ih _ ?_
            simp only [List.all_append, Bool.and_eq_true]
            exact ⟨⟨hst, deleteFirewallRule_trace_all env.fwEnv st.fw r.Publicipid _
                (ProtocolFromLoadBalancer r.Protocol)⟩,
              deleteLoadBalancerRule_trace_all env st.lb r lb1 tr heq⟩

theorem ensureBody_trace_all (env : CSEnv) (svc : Service) (lb : LB) :
    ((ensureBody env svc lb).trace).all bodyAction = true := by
  simp only [ensureBody]
  cases hps : ensurePorts env { svc with annots := setAnnot svc.annots lbAddressKey lb.ipAddr }
      svc.ports ⟨lb, env.fwState, []⟩ with
  | mk st1 e1 =>
    have h1 : st1.trace.all bodyAction = true := by
      have h2 := ensurePorts_trace_all env
        { svc with annots := setAnnot svc.annots lbAddressKey lb.ipAddr } svc.ports
        ⟨lb, env.fwState, []⟩ rfl
      rw [hps] at h2
      exact h2
    cases e1 with
    | some e =>
      simp only [hps]
      exact h1
    | none =>
      simp only [hps]
      cases hcl : cleanupRules env st1.lb.rules st1 with
      | mk st2 e2 =>
        have h2 : st2.trace.all bodyAction = true := by
          have h3 := cleanupRules_trace_all env st1.lb.rules st1 h1
          rw [hcl] at h3
          exact h3
        cases e2 with
        | some e =>
          simp only [hcl]
          exact h2
        | none =>
          simp only [hcl]
          split
          · exact h2
          · exact h2

theorem ensureCore_no_patch (env : CSEnv) (clusterName : String) (svc : Service)
    (nodes : List String) :
    CloudAction.patchService ∉ (ensureCore env clusterName svc nodes).trace := by
  simp only [ensureCore]
  split
  · simp
  · split
    · simp
    · split
      · simp
      · split
        · simp
        · split
          · exact no_patch_of_bodyAction _ (ensureBody_trace_all env svc _)
          · split
            · simp
            · rename_i lbC trIP heq
              have htrIP : trIP.all bodyAction = true :=
                getLoadBalancerIP_trace_all env _ svc.loadBalancerIP lbC trIP heq
              split
              · intro hmem
                rcases List.mem_append.mp hmem with hm | hm
                · exact no_patch_of_bodyAction trIP htrIP hm
                · exact no_patch_of_bodyAction _ (ensureBody_trace_all env svc lbC) hm
              · split
                · intro hmem
                  rcases List.mem_append.mp hmem with hm | hm
                  · rcases List.mem_append.mp hm with hm2 | hm2
                    · exact no_patch_of_bodyAction trIP htrIP hm2
                    · exact no_patch_of_bodyAction _ (ensureBody_trace_all env svc lbC) hm2
                  · revert hm
                    unfold releaseLoadBalancerIP
                    split
                    · simp
                    · simp
                · intro hmem
                  rcases List.mem_append.mp hmem with hm | hm
                  · exact no_patch_of_bodyAction trIP htrIP hm
                  · exact no_patch_of_bodyAction _ (ensureBody_trace_all env svc lbC) hm

/-- **C9.** `EnsureLoadBalancer` issues the deferred Service patch at most
once, only as the very last action, on the success and the error path
alike: when the annotation map is unchanged (`reflect.DeepEqual`) no patch
request is issued and the core result (status or error) passes through
unchanged; when it changed, exactly one patch request is appended after
every remote action of the call. -/
theorem C9_ensureLoadBalancer (env : CSEnv) (clusterName : String) (svc : Service)
    (nodes : List String) :
    ((ensureLoadBalancer env clusterName svc nodes).trace.count .patchService ≤ 1) ∧
    (annotMapEq svc.annots (ensureCore env clusterName svc nodes).annots = true →
      ensureLoadBalancer env clusterName svc nodes =
        ⟨(ensureCore env clusterName svc nodes).res,
         (ensureCore env clusterName svc nodes).annots,
         (ensureCore env clusterName svc nodes).trace⟩ ∧
      (ensureLoadBalancer env clusterName svc nodes).trace.count .patchService = 0) ∧
    (annotMapEq svc.annots (ensureCore env clusterName svc nodes).annots = false →
      (ensureLoadBalancer env clusterName svc nodes).trace =
        (ensureCore env clusterName svc nodes).trace ++ [.patchService] ∧
      (ensureLoadBalancer env clusterName svc nodes).trace.count .patchService = 1 ∧
      (ensureLoadBalancer env clusterName svc nodes).trace.getLast? =
        some .patchService) := by
  have hc0 : (ensureCore env clusterName svc nodes).trace.count .patchService = 0 :=
    List.count_eq_zero.mpr (ensureCore_no_patch env clusterName svc nodes)
  have hEq : annotMapEq svc.annots (ensureCore env clusterName svc nodes).annots = true →
      ensureLoadBalancer env clusterName svc nodes =
        ⟨(ensureCore env clusterName svc nodes).res,
         (ensureCore env clusterName svc nodes).annots,
         (ensureCore env clusterName svc nodes).trace⟩ := by
    intro hae
    simp only [ensureLoadBalancer, patcherPatch, hae]
    cases hres : (ensureCore env clusterName svc nodes).res with
    | ok s => simp [hres]
    | error e => simp [hres]
  have hNe : annotMapEq svc.annots (ensureCore env clusterName svc nodes).annots = false →
      (ensureLoadBalancer env clusterName svc nodes).trace =
        (ensureCore env clusterName svc nodes).trace ++ [.patchService] := by
    intro hae
    simp only [ensureLoadBalancer, patcherPatch, hae]
    cases hres : (ensureCore env clusterName svc nodes).res with
    | ok s =>
      cases hpf : env.patchFails with
      | false => simp [hres, hpf, newAggregate]
      | true => simp [hres, hpf, newAggregate]
    | error e =>
      cases hpf : env.patchFails with
      | false => simp [hres, hpf, newAggregate]
      | true => simp [hres, hpf, newAggregate]
  have hcnt1 : annotMapEq svc.annots (ensureCore env clusterName svc nodes).annots = false →
      (ensureLoadBalancer env clusterName svc nodes).trace.count .patchService = 1 := by
    intro hae
    rw [hNe hae, List.count_append, hc0]
    rfl
  refine ⟨?_, fun hae => ⟨hEq hae, ?_⟩, fun hae => ⟨hNe hae, hcnt1 hae, ?_⟩⟩
  · cases hae : annotMapEq svc.annots (ensureCore env clusterName svc nodes).annots with
    | true =>
      rw [hEq hae]
      simp [hc0]
    | false =>
      rw [hcnt1 hae]
  · rw [hEq hae]
    exact hc0
  · rw [hNe hae]
    exact List.getLast?_concat _

theorem C9_ensureLoadBalancer_witness :
    annotMapEq svc9.annots (ensureCore env9 "c" svc9 nodes9).annots = false ∧
    ((ensureLoadBalancer env9 "c" svc9 nodes9).trace =
      (ensureCore env9 "c" svc9 nodes9).trace ++ [.patchService] ∧
     (ensureLoadBalancer env9 "c" svc9 nodes9).trace.count .patchService = 1 ∧
     (ensureLoadBalancer env9 "c" svc9 nodes9).trace.getLast? = some .patchService) :=
  ⟨by decide, (C9_ensureLoadBalancer env9 "c" svc9 nodes9).2.2 (by decide)⟩

/-- **C5.** With the call pinned to the IP-resolution point (ports
non-empty, locator, affinity and host verification successful): a load
balancer that already carries an IP is reconciled without any
`DisassociateIpAddress`; on the no-IP path, when the body fails after a
new IP was resolved, the caller sees the body's error (also when the
compensating release fails — that failure is only logged — and, when the
final patch succeeds, also after the deferred patch), the newly associated
IP (resolved address non-empty and different from the requested
`Spec.LoadBalancerIP`) is released exactly when the release call works,
and a pinned resolved address (empty or equal to the requested one) is
never released. -/
theorem C5_ensureLoadBalancer (env : CSEnv) (clusterName : String) (svc : Service)
    (nodes : List String) (lb0 : LB) (algo : String) (ids : List String) (net : String)
    (lbB : LB)
    (hports : ¬ svc.ports.length = 0)
    (hloc : getLoadBalancerByName env (getLoadBalancerName clusterName svc)
      (getLoadBalancerLegacyName env) = .ok lb0)
    (halgo : affinityAlgorithm svc.sessionAffinity = some algo)
    (hverify : verifyHostsOf env nodes = .ok (ids, net))
    (hlbB : lbB = { { lb0 with algorithm := algo } with hostIDs := ids, networkID := net }) :
    (hasLoadBalancerIP lbB = true →
      ensureCore env clusterName svc nodes = ensureBody env svc lbB ∧
      ∀ i, CloudAction.disassociateIP i ∉ (ensureCore env clusterName svc nodes).trace) ∧
    (∀ lbC trIP e, hasLoadBalancerIP lbB = false →
      getLoadBalancerIP env lbB svc.loadBalancerIP = .ok (lbC, trIP) →
      (ensureBody env svc lbC).res = .error e →
      (ensureCore env clusterName svc nodes).res = .error e ∧
      (env.patchFails = false →
        (ensureLoadBalancer env clusterName svc nodes).res = .error e) ∧
      ((lbC.ipAddr ≠ "" ∧ lbC.ipAddr ≠ svc.loadBalancerIP) →
        (env.disassociateFails = false →
          CloudAction.disassociateIP lbC.ipAddrID ∈
            (ensureCore env clusterName svc nodes).trace) ∧
        (env.disassociateFails = true →
          ∀ i, CloudAction.disassociateIP i ∉ (ensureCore env clusterName svc nodes).trace)) ∧
      (¬ (lbC.ipAddr ≠ "" ∧ lbC.ipAddr ≠ svc.loadBalancerIP) →
        ∀ i, CloudAction.disassociateIP i ∉ (ensureCore env clusterName svc nodes).trace)) := by
  subst hlbB
  constructor
  · intro hip
    have hcore : ensureCore env clusterName svc nodes =
        ensureBody env svc
          { { lb0 with algorithm := algo } with hostIDs := ids, networkID := net } := by
      simp [ensureCore, hports, hloc, halgo, hverify, hip]
    refine ⟨hcore, ?_⟩
    intro i
    rw [hcore]
    exact no_disassociate_of_bodyAction _ (ensureBody_trace_all env svc _) i
  · intro lbC trIP e hip hget hbody
    have hcore : ensureCore env clusterName svc nodes =
        (if decide (lbC.ipAddr ≠ "" ∧ lbC.ipAddr ≠ svc.loadBalancerIP) = true then
          ⟨.error e, (ensureBody env svc lbC).annots,
            trIP ++ (ensureBody env svc lbC).trace ++ (releaseLoadBalancerIP env lbC).1⟩
        else
          ⟨.error e, (ensureBody env svc lbC).annots,
            trIP ++ (ensureBody env svc lbC).trace⟩) := by
      simp [ensureCore, hports, hloc, halgo, hverify, hip, hget, hbody]
    have htrIP : trIP.all bodyAction = true :=
      getLoadBalancerIP_trace_all env _ svc.loadBalancerIP lbC trIP hget
    have hres : (ensureCore env clusterName svc nodes).res = .error e := by
      rw [hcore]
      by_cases hc : lbC.ipAddr ≠ "" ∧ lbC.ipAddr ≠ svc.loadBalancerIP
      · simp [hc]
      · simp [hc]
    have hpatch : env.patchFails = false →
        (ensureLoadBalancer env clusterName svc nodes).res = .error e := by
      intro hpf
      simp only [ensureLoadBalancer, hres, patcherPatch]
      cases hae : annotMapEq svc.annots (ensureCore env clusterName svc nodes).annots with
      | true => simp [hae]
      | false => simp [hae, hpf, newAggregate]
    refine ⟨hres, hpatch, ?_, ?_⟩
    · intro hc
      constructor
      · intro hdf
        rw [hcore, if_pos (by simpa using hc)]
        simp only [releaseLoadBalancerIP, hdf]
        simp [List.mem_append]
      · intro hdf i
        rw [hcore, if_pos (by simpa using hc)]
        simp only [releaseLoadBalancerIP, hdf, eq_self_iff_true, if_true]
        intro hmem
        simp only [List.append_nil, List.mem_append] at hmem
        rcases hmem with hm | hm
        · exact no_disassociate_of_bodyAction trIP htrIP i hm
        · exact no_disassociate_of_bodyAction _ (ensureBody_trace_all env svc lbC) i hm
    · intro hc i
      rw [hcore, if_neg (by simpa using hc)]
      intro hmem
      simp only [List.mem_append] at hmem
      rcases hmem with hm | hm
      · exact no_disassociate_of_bodyAction trIP htrIP i hm
      · exact no_disassociate_of_bodyAction _ (ensureBody_trace_all env svc lbC) i hm

theorem C5_ensureLoadBalancer_witness :
    CloudAction.disassociateIP "ipid1" ∈ (ensureCore env5 "c" svc9 nodes9).trace ∧
    (ensureCore env5 "c" svc9 nodes9).res =
      .error (.createLBRuleError (getLoadBalancerName "c" svc9 ++ "-tcp-80")) := by
  have h := (C5_ensureLoadBalancer env5 "c" svc9 nodes9
      (emptyLB "" (getLoadBalancerName "c" svc9)) "roundrobin" ["vm1"] "net1"
      { { emptyLB "" (getLoadBalancerName "c" svc9) with algorithm := "roundrobin" } with
        hostIDs := ["vm1"], networkID := "net1" }
      (by decide) (by decide) (by decide) (by decide) rfl).2
      { { { emptyLB "" (getLoadBalancerName "c" svc9) with algorithm := "roundrobin" } with
          hostIDs := ["vm1"], networkID := "net1" } with
        ipAddr := "10.0.0.1", ipAddrID := "ipid1" }
      [.associateIP "ipid1"]
      (.createLBRuleError (getLoadBalancerName "c" svc9 ++ "-tcp-80"))
      (by decide) (by decide) (by decide)
  exact ⟨(h.2.2.1 (by decide)).1 rfl, h.1⟩

end CSCCM
